import Mathlib

set_option maxHeartbeats 1000000

/-!
Verification development for the BusTub lock manager
(src/concurrency/lock_manager.cpp) and the extendible hash index
(src/container/hash/extendible_hash_table.cpp,
src/storage/page/hash_table_bucket_page.cpp).

The C++ code is shallowly embedded: every lock-manager operation becomes a
pure state transformer on an explicit state holding the transaction table and
the per-RID lock request queues; the single condition-variable wait becomes a
distinguished `blocked` outcome (single-threaded semantics: nothing can wake a
waiter while the lock-table mutex model is held).
-/

namespace BusTub

/-- Transaction two-phase states (concurrency/transaction.h contract, spec section 3). -/
inductive TransactionState where
  | GROWING
  | SHRINKING
  | COMMITTED
  | ABORTED
deriving DecidableEq, Repr

/-- Isolation levels (spec section 3). -/
inductive IsolationLevel where
  | READ_UNCOMMITTED
  | READ_COMMITTED
  | REPEATABLE_READ
deriving DecidableEq, Repr

/-- Lock modes of the lock manager. -/
inductive LockMode where
  | SHARED
  | EXCLUSIVE
deriving DecidableEq, Repr

/-- The sentinel transaction id (common/config.h: txn_id_t is an integer, INVALID_TXN_ID = -1). -/
def INVALID_TXN_ID : Int := -1

/-- The lock-manager-relevant fields of a bustub Transaction: two-phase state,
isolation level, and the shared / exclusive RID sets.  RIDs are modelled as naturals. -/
structure Txn where
  state : TransactionState
  isolation : IsolationLevel
  sharedSet : List Nat
  exclusiveSet : List Nat
deriving DecidableEq, Repr

/-- A pending request in a LockRequestQueue (txn id and requested mode). -/
structure LockRequest where
  txn_id_ : Int
  lock_mode_ : LockMode
deriving DecidableEq, Repr

/-- Per-RID queue state: FIFO pending list, set of shared holders, the exclusive
holder (or INVALID_TXN_ID) and the recorded upgrader (or INVALID_TXN_ID). -/
structure LockRequestQueue where
  request_queue_ : List LockRequest
  shared_lock_holders_ : List Int
  exclusive_lock_holder_ : Int
  upgrading_ : Int
deriving DecidableEq, Repr

/-- A freshly default-constructed queue, as produced by lock_table_[rid] on first use. -/
def emptyQueue : LockRequestQueue :=
  { request_queue_ := [], shared_lock_holders_ := [], exclusive_lock_holder_ := INVALID_TXN_ID,
    upgrading_ := INVALID_TXN_ID }

/-- Whole lock-manager state: the transaction table (TransactionManager::GetTransaction)
and the lock table mapping each RID to its queue (default queue when never referenced). -/
structure LMState where
  txns : Int → Txn
  queues : Nat → LockRequestQueue

/-- Replace the two-phase state of one transaction (Transaction::SetState). -/
def setTxnState (s : LMState) (tid : Int) (st : TransactionState) : LMState :=
  { s with txns := fun t => if t = tid then { s.txns t with state := st } else s.txns t }

/-- Update one transaction record. -/
def updTxn (s : LMState) (tid : Int) (f : Txn → Txn) : LMState :=
  { s with txns := fun t => if t = tid then f (s.txns t) else s.txns t }

/-- Replace the queue of one RID. -/
def setQueue (s : LMState) (rid : Nat) (q : LockRequestQueue) : LMState :=
  { s with queues := fun r => if r = rid then q else s.queues r }

/-- Set every transaction in the list to ABORTED. -/
def abortTxns (s : LMState) : List Int → LMState
  | [] => s
  | t :: rest => abortTxns (setTxnState s t TransactionState.ABORTED) rest

/-- unordered_set insert: add an element unless already present. -/
def insertIfAbsent (l : List Int) (x : Int) : List Int :=
  if l.contains x then l else x :: l

/-- unordered_set of RIDs: emplace. -/
def insertRid (l : List Nat) (x : Nat) : List Nat :=
  if l.contains x then l else x :: l

/-- The wound-wait condition of LockManager::PreemptsYoungerRequests: a pending
request is preempted when the requester's mode conflicts with it and the pending
transaction is younger (has the larger id). -/
def preemptCond (lock_mode : LockMode) (txn_id : Int) (r : LockRequest) : Bool :=
  (lock_mode == LockMode.EXCLUSIVE ||
    (lock_mode == LockMode.SHARED && r.lock_mode_ == LockMode.EXCLUSIVE)) &&
  decide (txn_id < r.txn_id_)

/-- LockManager::PreemptsYoungerRequests: abort and drop every younger conflicting
pending request of the RID's queue. -/
def PreemptsYoungerRequests (s : LMState) (rid : Nat) (txn_id : Int) (lock_mode : LockMode) :
    LMState :=
  let q := s.queues rid
  let victims := q.request_queue_.filter (preemptCond lock_mode txn_id)
  let s1 := abortTxns s (victims.map LockRequest.txn_id_)
  setQueue s1 rid
    { s1.queues rid with
      request_queue_ := q.request_queue_.filter fun r => !(preemptCond lock_mode txn_id r) }

/-- LockManager::PreemptsYoungerSharedLockHolders: abort and remove every shared
holder younger than the requester. -/
def PreemptsYoungerSharedLockHolders (s : LMState) (rid : Nat) (txn_id : Int) : LMState :=
  let q := s.queues rid
  let victims := q.shared_lock_holders_.filter fun h => decide (txn_id < h)
  let s1 := abortTxns s victims
  setQueue s1 rid
    { s1.queues rid with
      shared_lock_holders_ := q.shared_lock_holders_.filter fun h => !(decide (txn_id < h)) }

/-- LockManager::PreemptsYoungerExclusiveLockHolders: abort the exclusive holder and
clear it when it is younger than the requester. -/
def PreemptsYoungerExclusiveLockHolders (s : LMState) (rid : Nat) (txn_id : Int) : LMState :=
  let q := s.queues rid
  if txn_id < q.exclusive_lock_holder_ then
    let s1 := setTxnState s q.exclusive_lock_holder_ TransactionState.ABORTED
    setQueue s1 rid { s1.queues rid with exclusive_lock_holder_ := INVALID_TXN_ID }
  else s

/-- LockManager::LockShared, src/concurrency/lock_manager.cpp lines 21-58. -/
def LockShared (s : LMState) (tid : Int) (rid : Nat) : LMState × Bool :=
  let txn := s.txns tid
  if txn.state = TransactionState.ABORTED then (s, false)
  else if txn.isolation = IsolationLevel.REPEATABLE_READ ∧
      txn.state = TransactionState.SHRINKING then
    (setTxnState s tid TransactionState.ABORTED, false)
  else if txn.isolation = IsolationLevel.READ_UNCOMMITTED then
    (setTxnState s tid TransactionState.ABORTED, false)
  else if txn.sharedSet.contains rid ∨ txn.exclusiveSet.contains rid then (s, true)
  else
    let s1 := PreemptsYoungerRequests s rid tid LockMode.SHARED
    let s2 := PreemptsYoungerExclusiveLockHolders s1 rid tid
    let q := s2.queues rid
    let s3 := setQueue s2 rid
      { q with shared_lock_holders_ := insertIfAbsent q.shared_lock_holders_ tid }
    let s4 := updTxn s3 tid fun t => { t with sharedSet := insertRid t.sharedSet rid }
    (s4, true)

/-- Outcome of an exclusive acquisition or upgrade: granted (true), denied (false),
or blocked forever on the condition variable (single-threaded semantics of the wait). -/
inductive LockOutcome where
  | granted
  | denied
  | blocked
deriving DecidableEq, Repr

/-- Modelled from the spec: LockRequestQueue::IsLockGranted is declared in the missing
header concurrency/lock_manager.h; per spec section 4.4.2/4.4.4 a queued exclusive
request is granted exactly when queue processing has installed it as the exclusive
holder (ProcessQueue pops the request and sets exclusive_lock_holder_). -/
def IsLockGranted (q : LockRequestQueue) (tid : Int) : Bool :=
  q.exclusive_lock_holder_ == tid

/-- Code following the acquisition / wait in LockManager::LockExclusive: fail if
wounded while waiting, otherwise record the RID in the exclusive set and succeed. -/
def exclusiveTail (s : LMState) (tid : Int) (rid : Nat) : LMState × LockOutcome :=
  if (s.txns tid).state = TransactionState.ABORTED then (s, LockOutcome.denied)
  else
    (updTxn s tid fun t => { t with exclusiveSet := insertRid t.exclusiveSet rid },
     LockOutcome.granted)

/-- Code following the acquisition / wait in LockManager::LockUpgrade: fail if wounded,
otherwise move the RID from the shared set to the exclusive set and succeed. -/
def upgradeTail (s : LMState) (tid : Int) (rid : Nat) : LMState × LockOutcome :=
  if (s.txns tid).state = TransactionState.ABORTED then (s, LockOutcome.denied)
  else
    (updTxn s tid fun t =>
      { t with sharedSet := t.sharedSet.filter fun r => r != rid,
               exclusiveSet := insertRid t.exclusiveSet rid },
     LockOutcome.granted)

/-- LockManager::LockUpgrade, src/concurrency/lock_manager.cpp lines 107-153. -/
def LockUpgrade (s : LMState) (tid : Int) (rid : Nat) : LMState × LockOutcome :=
  let txn := s.txns tid
  if txn.state = TransactionState.ABORTED then (s, LockOutcome.denied)
  else if txn.state = TransactionState.SHRINKING then
    (setTxnState s tid TransactionState.ABORTED, LockOutcome.denied)
  else if ¬ txn.sharedSet.contains rid then (s, LockOutcome.denied)
  else if (s.queues rid).upgrading_ ≠ INVALID_TXN_ID then
    (setTxnState s tid TransactionState.ABORTED, LockOutcome.denied)
  else
    let q0 := s.queues rid
    let s1 := setQueue s rid
      { q0 with shared_lock_holders_ := q0.shared_lock_holders_.filter fun h => h != tid }
    let s2 := PreemptsYoungerRequests s1 rid tid LockMode.EXCLUSIVE
    let s3 := PreemptsYoungerSharedLockHolders s2 rid tid
    let s4 := PreemptsYoungerExclusiveLockHolders s3 rid tid
    let q := s4.queues rid
    if q.exclusive_lock_holder_ = INVALID_TXN_ID ∧ q.shared_lock_holders_ = [] then
      upgradeTail (setQueue s4 rid { q with exclusive_lock_holder_ := tid }) tid rid
    else
      let s5 := setQueue s4 rid
        { q with request_queue_ := q.request_queue_ ++ [⟨tid, LockMode.EXCLUSIVE⟩],
                 upgrading_ := tid }
      if IsLockGranted (s5.queues rid) tid ∨
          (s5.txns tid).state = TransactionState.ABORTED then upgradeTail s5 tid rid
      else (s5, LockOutcome.blocked)

/-- LockManager::LockExclusive, src/concurrency/lock_manager.cpp lines 60-105. -/
def LockExclusive (s : LMState) (tid : Int) (rid : Nat) : LMState × LockOutcome :=
  let txn := s.txns tid
  if txn.state = TransactionState.ABORTED then (s, LockOutcome.denied)
  else if txn.state = TransactionState.SHRINKING then
    (setTxnState s tid TransactionState.ABORTED, LockOutcome.denied)
  else if txn.exclusiveSet.contains rid then (s, LockOutcome.granted)
  else if txn.sharedSet.contains rid then LockUpgrade s tid rid
  else
    let s1 := PreemptsYoungerRequests s rid tid LockMode.EXCLUSIVE
    let s2 := PreemptsYoungerSharedLockHolders s1 rid tid
    let s3 := PreemptsYoungerExclusiveLockHolders s2 rid tid
    let q := s3.queues rid
    if q.request_queue_ ≠ [] ∨ q.shared_lock_holders_ ≠ [] ∨
        q.exclusive_lock_holder_ ≠ INVALID_TXN_ID then
      let s4 := setQueue s3 rid
        { q with request_queue_ := q.request_queue_ ++ [⟨tid, LockMode.EXCLUSIVE⟩] }
      if IsLockGranted (s4.queues rid) tid ∨
          (s4.txns tid).state = TransactionState.ABORTED then exclusiveTail s4 tid rid
      else (s4, LockOutcome.blocked)
    else
      exclusiveTail (setQueue s3 rid { q with exclusive_lock_holder_ := tid }) tid rid

/-- LockManager::ProcessQueue, src/concurrency/lock_manager.cpp lines 183-190: pop the
head pending request and install it as the exclusive holder, clearing upgrading_ when
it matches (only called when the pending list is non-empty). -/
def ProcessQueue (q : LockRequestQueue) : LockRequestQueue :=
  match q.request_queue_ with
  | [] => q
  | r :: rest =>
    { q with exclusive_lock_holder_ := r.txn_id_,
             upgrading_ := if q.upgrading_ = r.txn_id_ then INVALID_TXN_ID else q.upgrading_,
             request_queue_ := rest }

/-- LockManager::Unlock, src/concurrency/lock_manager.cpp lines 155-181. -/
def Unlock (s : LMState) (tid : Int) (rid : Nat) : LMState × Bool :=
  let txn := s.txns tid
  let s1 := if txn.isolation = IsolationLevel.REPEATABLE_READ ∧
      txn.state = TransactionState.GROWING then setTxnState s tid TransactionState.SHRINKING
    else s
  let q := s1.queues rid
  let q1 := if q.exclusive_lock_holder_ = tid then
      { q with exclusive_lock_holder_ := INVALID_TXN_ID } else q
  let q2 := { q1 with shared_lock_holders_ := q1.shared_lock_holders_.filter fun h => h != tid }
  let s2 := setQueue s1 rid q2
  let s3 := updTxn s2 tid fun t =>
    { t with sharedSet := t.sharedSet.filter fun r => r != rid,
             exclusiveSet := t.exclusiveSet.filter fun r => r != rid }
  let q3 := s3.queues rid
  let s4 := if q3.shared_lock_holders_ = [] ∧ q3.request_queue_ ≠ [] then
      setQueue s3 rid (ProcessQueue q3) else s3
  (s4, true)

theorem abortTxns_queues (l : List Int) : ∀ s : LMState, (abortTxns s l).queues = s.queues := by
  induction l with
  | nil => intro s; rfl
  | cons t rest ih => intro s; simpa [abortTxns, setTxnState] using ih (setTxnState s t TransactionState.ABORTED)

theorem setQueue_queues_same (s : LMState) (rid : Nat) (q : LockRequestQueue) :
    (setQueue s rid q).queues rid = q := by
  simp [setQueue]

theorem setQueue_txns (s : LMState) (rid : Nat) (q : LockRequestQueue) :
    (setQueue s rid q).txns = s.txns := rfl

theorem PYR_queues_same (s : LMState) (rid : Nat) (tid : Int) (m : LockMode) :
    (PreemptsYoungerRequests s rid tid m).queues rid =
      { s.queues rid with
        request_queue_ := (s.queues rid).request_queue_.filter fun r => !(preemptCond m tid r) } := by
  simp [PreemptsYoungerRequests, setQueue, abortTxns_queues]

theorem PYS_queues_same (s : LMState) (rid : Nat) (tid : Int) :
    (PreemptsYoungerSharedLockHolders s rid tid).queues rid =
      { s.queues rid with
        shared_lock_holders_ :=
          (s.queues rid).shared_lock_holders_.filter fun h => !(decide (tid < h)) } := by
  simp [PreemptsYoungerSharedLockHolders, setQueue, abortTxns_queues]

theorem PYE_queues_same (s : LMState) (rid : Nat) (tid : Int) :
    (PreemptsYoungerExclusiveLockHolders s rid tid).queues rid =
      { s.queues rid with
        exclusive_lock_holder_ :=
          if tid < (s.queues rid).exclusive_lock_holder_ then INVALID_TXN_ID
          else (s.queues rid).exclusive_lock_holder_ } := by
  unfold PreemptsYoungerExclusiveLockHolders
  split
  case isTrue h => simp [setQueue, setTxnState, h]
  case isFalse h => simp [h]

/-- Claim C9: Unlock always returns true; a REPEATABLE_READ transaction in GROWING
moves to SHRINKING on every Unlock (held or not), and transactions at other isolation
levels never change state on Unlock. -/
theorem C9_unlock_returns_true_and_transitions (s : LMState) (tid : Int) (rid : Nat) :
    (Unlock s tid rid).2 = true ∧
    ((s.txns tid).isolation = IsolationLevel.REPEATABLE_READ →
      (s.txns tid).state = TransactionState.GROWING →
      ((Unlock s tid rid).1.txns tid).state = TransactionState.SHRINKING) ∧
    ((s.txns tid).isolation ≠ IsolationLevel.REPEATABLE_READ →
      ((Unlock s tid rid).1.txns tid).state = (s.txns tid).state) := by
  have key : ((Unlock s tid rid).1.txns tid).state =
      if (s.txns tid).isolation = IsolationLevel.REPEATABLE_READ ∧
          (s.txns tid).state = TransactionState.GROWING then TransactionState.SHRINKING
      else (s.txns tid).state := by
    by_cases hc : (s.txns tid).isolation = IsolationLevel.REPEATABLE_READ ∧
        (s.txns tid).state = TransactionState.GROWING
    · simp only [Unlock, setQueue, updTxn, setTxnState, hc, if_true]
      repeat' split
      all_goals simp_all
    · simp only [Unlock, setQueue, updTxn, setTxnState, hc, if_false]
      repeat' split
      all_goals simp_all
  refine ⟨rfl, ?_, ?_⟩
  · intro h1 h2
    rw [key, if_pos ⟨h1, h2⟩]
  · intro h1
    rw [key, if_neg fun hc => h1 hc.1]

/-- Witness for C9 at a concrete state. -/
theorem C9_witness :
    ((BusTub.Unlock
        { txns := fun _ =>
            { state := TransactionState.GROWING, isolation := IsolationLevel.REPEATABLE_READ,
              sharedSet := [], exclusiveSet := [] },
          queues := fun _ => emptyQueue } 1 0).1.txns 1).state = TransactionState.SHRINKING ∧
    ((BusTub.Unlock
        { txns := fun _ =>
            { state := TransactionState.GROWING, isolation := IsolationLevel.READ_COMMITTED,
              sharedSet := [], exclusiveSet := [] },
          queues := fun _ => emptyQueue } 1 0).1.txns 1).state = TransactionState.GROWING := by
  constructor
  · exact (C9_unlock_returns_true_and_transitions _ 1 0).2.1 rfl rfl
  · exact (C9_unlock_returns_true_and_transitions _ 1 0).2.2 (by decide)

/-- Claim C10: whenever Unlock is called on an RID whose queue has no shared holders
and a non-empty pending list, the head pending request is unconditionally popped and
installed as the exclusive holder, overwriting whatever holder was recorded. -/
theorem C10_unlock_promotes_head_unconditionally (s : LMState) (tid : Int) (rid : Nat)
    (r : LockRequest) (rest : List LockRequest)
    (hsh : (s.queues rid).shared_lock_holders_ = [])
    (hq : (s.queues rid).request_queue_ = r :: rest) :
    ((Unlock s tid rid).1.queues rid).exclusive_lock_holder_ = r.txn_id_ ∧
    ((Unlock s tid rid).1.queues rid).request_queue_ = rest := by
  simp only [Unlock, setTxnState, updTxn, setQueue]
  repeat' split
  all_goals simp_all [ProcessQueue]

/-- Witness for C10: the caller (txn 3) holds nothing on the RID, txn 7 is still the
recorded exclusive holder, yet Unlock installs pending txn 5 as the holder. -/
theorem C10_witness :
    ((BusTub.Unlock
        { txns := fun _ =>
            { state := TransactionState.GROWING, isolation := IsolationLevel.READ_COMMITTED,
              sharedSet := [], exclusiveSet := [] },
          queues := fun _ =>
            { request_queue_ := [⟨5, LockMode.EXCLUSIVE⟩], shared_lock_holders_ := [],
              exclusive_lock_holder_ := 7, upgrading_ := INVALID_TXN_ID } } 3 0).1.queues
        0).exclusive_lock_holder_ = 5 ∧
    ((BusTub.Unlock
        { txns := fun _ =>
            { state := TransactionState.GROWING, isolation := IsolationLevel.READ_COMMITTED,
              sharedSet := [], exclusiveSet := [] },
          queues := fun _ =>
            { request_queue_ := [⟨5, LockMode.EXCLUSIVE⟩], shared_lock_holders_ := [],
              exclusive_lock_holder_ := 7, upgrading_ := INVALID_TXN_ID } } 3 0).1.queues
        0).request_queue_ = [] :=
  C10_unlock_promotes_head_unconditionally _ 3 0 ⟨5, LockMode.EXCLUSIVE⟩ [] rfl rfl

theorem updTxn_queues (s : LMState) (tid : Int) (f : Txn → Txn) :
    (updTxn s tid f).queues = s.queues := rfl

theorem setTxnState_queues (s : LMState) (tid : Int) (st : TransactionState) :
    (setTxnState s tid st).queues = s.queues := rfl

theorem exclusiveTail_queues (s : LMState) (tid : Int) (rid : Nat) :
    (exclusiveTail s tid rid).1.queues = s.queues := by
  unfold exclusiveTail
  split <;> rfl

theorem upgradeTail_queues (s : LMState) (tid : Int) (rid : Nat) :
    (upgradeTail s tid rid).1.queues = s.queues := by
  unfold upgradeTail
  split <;> rfl

/-- Claim C4: each policy-violating request by a live transaction is denied with false
and aborts the requester: shared under READ_UNCOMMITTED; shared under REPEATABLE_READ
while SHRINKING; exclusive (and upgrade) while SHRINKING; an upgrade while a different
upgrader is recorded on the queue. -/
theorem C4_policy_rejections_abort (s : LMState) (tid : Int) (rid : Nat) :
    ((s.txns tid).state ≠ TransactionState.ABORTED →
      (s.txns tid).isolation = IsolationLevel.READ_UNCOMMITTED →
      (LockShared s tid rid).2 = false ∧
      ((LockShared s tid rid).1.txns tid).state = TransactionState.ABORTED) ∧
    ((s.txns tid).isolation = IsolationLevel.REPEATABLE_READ →
      (s.txns tid).state = TransactionState.SHRINKING →
      (LockShared s tid rid).2 = false ∧
      ((LockShared s tid rid).1.txns tid).state = TransactionState.ABORTED) ∧
    ((s.txns tid).state = TransactionState.SHRINKING →
      (LockExclusive s tid rid).2 = LockOutcome.denied ∧
      ((LockExclusive s tid rid).1.txns tid).state = TransactionState.ABORTED) ∧
    ((s.txns tid).state = TransactionState.SHRINKING →
      (LockUpgrade s tid rid).2 = LockOutcome.denied ∧
      ((LockUpgrade s tid rid).1.txns tid).state = TransactionState.ABORTED) ∧
    ((s.txns tid).state ≠ TransactionState.ABORTED →
      (s.txns tid).state ≠ TransactionState.SHRINKING →
      (s.txns tid).sharedSet.contains rid = true →
      (s.queues rid).upgrading_ ≠ INVALID_TXN_ID →
      (s.queues rid).upgrading_ ≠ tid →
      (LockUpgrade s tid rid).2 = LockOutcome.denied ∧
      ((LockUpgrade s tid rid).1.txns tid).state = TransactionState.ABORTED) := by
  refine ⟨?_, ?_, ?_, ?_, ?_⟩
  · intro h1 h2
    have hrr : ¬ ((s.txns tid).isolation = IsolationLevel.REPEATABLE_READ ∧
        (s.txns tid).state = TransactionState.SHRINKING) := by
      rintro ⟨hiso, _⟩
      rw [h2] at hiso
      exact absurd hiso (by decide)
    simp [LockShared, h1, h2, hrr, setTxnState]
  · intro h1 h2
    simp [LockShared, h1, h2, setTxnState]
  · intro h1
    simp [LockExclusive, h1, setTxnState]
  · intro h1
    simp [LockUpgrade, h1, setTxnState]
  · intro h1 h2 h3 h4 h5
    have hmem : rid ∈ (s.txns tid).sharedSet := by simpa using h3
    simp [LockUpgrade, h1, h2, h3, h4, hmem, setTxnState]

/-- Witness for C4 at concrete states: each of the four rejection rules fires. -/
theorem C4_witness :
    ((LockShared
        { txns := fun _ =>
            { state := TransactionState.GROWING, isolation := IsolationLevel.READ_UNCOMMITTED,
              sharedSet := [], exclusiveSet := [] },
          queues := fun _ => emptyQueue } 1 0).2 = false) ∧
    ((LockShared
        { txns := fun _ =>
            { state := TransactionState.SHRINKING, isolation := IsolationLevel.REPEATABLE_READ,
              sharedSet := [], exclusiveSet := [] },
          queues := fun _ => emptyQueue } 1 0).2 = false) ∧
    ((LockExclusive
        { txns := fun _ =>
            { state := TransactionState.SHRINKING, isolation := IsolationLevel.READ_COMMITTED,
              sharedSet := [], exclusiveSet := [] },
          queues := fun _ => emptyQueue } 1 0).2 = LockOutcome.denied) ∧
    ((LockUpgrade
        { txns := fun _ =>
            { state := TransactionState.GROWING, isolation := IsolationLevel.READ_COMMITTED,
              sharedSet := [0], exclusiveSet := [] },
          queues := fun _ =>
            { request_queue_ := [], shared_lock_holders_ := [1, 9],
              exclusive_lock_holder_ := INVALID_TXN_ID, upgrading_ := 9 } } 1 0).2 =
      LockOutcome.denied ∧
     ((LockUpgrade
        { txns := fun _ =>
            { state := TransactionState.GROWING, isolation := IsolationLevel.READ_COMMITTED,
              sharedSet := [0], exclusiveSet := [] },
          queues := fun _ =>
            { request_queue_ := [], shared_lock_holders_ := [1, 9],
              exclusive_lock_holder_ := INVALID_TXN_ID, upgrading_ := 9 } } 1 0).1.txns
        1).state = TransactionState.ABORTED) := by
  refine ⟨?_, ?_, ?_, ?_⟩
  · exact ((C4_policy_rejections_abort _ 1 0).1 (by decide) (by decide)).1
  · exact ((C4_policy_rejections_abort _ 1 0).2.1 (by decide) (by decide)).1
  · exact ((C4_policy_rejections_abort _ 1 0).2.2.1 (by decide)).1
  · exact (C4_policy_rejections_abort _ 1 0).2.2.2.2 (by decide) (by decide) (by decide)
      (by decide) (by decide)

/-- Invariant L1 of the spec on one queue: the exclusive holder and the shared-holder
set are mutually exclusive. -/
def ExclInv (q : LockRequestQueue) : Prop :=
  (q.exclusive_lock_holder_ ≠ INVALID_TXN_ID → q.shared_lock_holders_ = []) ∧
  (q.shared_lock_holders_ ≠ [] → q.exclusive_lock_holder_ = INVALID_TXN_ID)

instance (q : LockRequestQueue) : Decidable (ExclInv q) := by
  unfold ExclInv
  infer_instance

theorem ExclInv_iff (q : LockRequestQueue) :
    ExclInv q ↔
      (q.exclusive_lock_holder_ = INVALID_TXN_ID ∨ q.shared_lock_holders_ = []) := by
  unfold ExclInv
  constructor
  · rintro ⟨h1, _⟩
    by_cases he : q.exclusive_lock_holder_ = INVALID_TXN_ID
    · exact Or.inl he
    · exact Or.inr (h1 he)
  · rintro (h | h)
    · exact ⟨fun hne => absurd h hne, fun _ => h⟩
    · exact ⟨fun _ => h, fun hne => absurd h hne⟩

theorem LockShared_keeps_ExclInv (s : LMState) (tid : Int) (rid : Nat)
    (hinv : ExclInv (s.queues rid))
    (hold : (s.queues rid).exclusive_lock_holder_ = INVALID_TXN_ID ∨
      tid < (s.queues rid).exclusive_lock_holder_) :
    ExclInv ((LockShared s tid rid).1.queues rid) := by
  simp only [LockShared]
  repeat' split
  · exact hinv
  · simpa [setTxnState] using hinv
  · simpa [setTxnState] using hinv
  · exact hinv
  · rw [ExclInv_iff]
    simp only [updTxn_queues, setQueue_queues_same, PYE_queues_same, PYR_queues_same]
    rcases hold with h | h
    · simp [h]
    · simp [h]

theorem LockUpgrade_keeps_ExclInv (s : LMState) (tid : Int) (rid : Nat)
    (hinv : ExclInv (s.queues rid)) :
    ExclInv ((LockUpgrade s tid rid).1.queues rid) := by
  rcases (ExclInv_iff _).1 hinv with hI | hI
  all_goals
    simp only [LockUpgrade]
    repeat' split
    all_goals first
      | exact hinv
      | (simpa [setTxnState] using hinv)
      | (rw [ExclInv_iff]
         simp only [upgradeTail_queues, setQueue_queues_same, PYE_queues_same,
           PYS_queues_same, PYR_queues_same, setTxnState_queues] at *
         first
           | (rename_i hguard
              exact Or.inr hguard.2)
           | (refine Or.inl ?_
              simp [hI]
              done)
           | (refine Or.inr ?_
              simp [hI]
              done)
           | simp_all)

theorem LockExclusive_keeps_ExclInv (s : LMState) (tid : Int) (rid : Nat)
    (hinv : ExclInv (s.queues rid)) :
    ExclInv ((LockExclusive s tid rid).1.queues rid) := by
  rcases (ExclInv_iff _).1 hinv with hI | hI
  all_goals
    simp only [LockExclusive]
    repeat' split
    all_goals first
      | exact hinv
      | (simpa [setTxnState] using hinv)
      | exact LockUpgrade_keeps_ExclInv s tid rid hinv
      | (rw [ExclInv_iff]
         simp only [exclusiveTail_queues, setQueue_queues_same, PYE_queues_same,
           PYS_queues_same, PYR_queues_same, setTxnState_queues] at *
         first
           | (rename_i hguard
              push_neg at hguard
              exact Or.inr hguard.2.1)
           | (refine Or.inl ?_
              simp [hI]
              done)
           | (refine Or.inr ?_
              simp [hI]
              done)
           | simp_all)

theorem Unlock_queues (s : LMState) (tid : Int) (rid : Nat) :
    ((Unlock s tid rid).1.queues rid) =
      (if ((s.queues rid).shared_lock_holders_.filter fun h => h != tid) = [] ∧
          (s.queues rid).request_queue_ ≠ [] then
        ProcessQueue
          { s.queues rid with
            exclusive_lock_holder_ :=
              if (s.queues rid).exclusive_lock_holder_ = tid then INVALID_TXN_ID
              else (s.queues rid).exclusive_lock_holder_,
            shared_lock_holders_ :=
              (s.queues rid).shared_lock_holders_.filter fun h => h != tid }
      else
        { s.queues rid with
          exclusive_lock_holder_ :=
            if (s.queues rid).exclusive_lock_holder_ = tid then INVALID_TXN_ID
            else (s.queues rid).exclusive_lock_holder_,
          shared_lock_holders_ :=
            (s.queues rid).shared_lock_holders_.filter fun h => h != tid }) := by
  simp only [Unlock]
  have h1 : (if (s.txns tid).isolation = IsolationLevel.REPEATABLE_READ ∧
      (s.txns tid).state = TransactionState.GROWING then
        setTxnState s tid TransactionState.SHRINKING
      else s).queues = s.queues := by
    split <;> rfl
  rw [h1]
  by_cases c2 : (s.queues rid).exclusive_lock_holder_ = tid
  all_goals
    simp only [c2, if_true, if_false, ite_true, ite_false, updTxn_queues, setQueue_queues_same]
    split <;> simp [setQueue_queues_same, updTxn_queues]

theorem Unlock_keeps_ExclInv (s : LMState) (tid : Int) (rid : Nat)
    (hinv : ExclInv (s.queues rid)) :
    ExclInv ((Unlock s tid rid).1.queues rid) := by
  rw [ExclInv_iff, Unlock_queues]
  rcases (ExclInv_iff _).1 hinv with hI | hI
  all_goals
    split
    all_goals first
      | (rename_i hcond
         refine Or.inr ?_
         unfold ProcessQueue
         split
         all_goals simpa using hcond.1)
      | (refine Or.inl ?_
         simp [hI]
         done)
      | (refine Or.inr ?_
         simp [hI]
         done)
      | simp_all

/-- Claim C2 (amended): LockExclusive, LockUpgrade and Unlock preserve the per-RID
exclusion invariant L1, and LockShared preserves it when the RID has no exclusive
holder or the caller is older (smaller id) than the recorded exclusive holder; the
original claim fails when a transaction with a larger id than the current exclusive
holder calls LockShared, which grants the shared lock without waiting. -/
theorem C2_lock_exclusion_amended (s : LMState) (tid : Int) (rid : Nat) :
    (ExclInv (s.queues rid) →
      ((s.queues rid).exclusive_lock_holder_ = INVALID_TXN_ID ∨
        tid < (s.queues rid).exclusive_lock_holder_) →
      ExclInv ((LockShared s tid rid).1.queues rid)) ∧
    (ExclInv (s.queues rid) → ExclInv ((LockExclusive s tid rid).1.queues rid)) ∧
    (ExclInv (s.queues rid) → ExclInv ((LockUpgrade s tid rid).1.queues rid)) ∧
    (ExclInv (s.queues rid) → ExclInv ((Unlock s tid rid).1.queues rid)) :=
  ⟨fun h1 h2 => LockShared_keeps_ExclInv s tid rid h1 h2,
   fun h => LockExclusive_keeps_ExclInv s tid rid h,
   fun h => LockUpgrade_keeps_ExclInv s tid rid h,
   fun h => Unlock_keeps_ExclInv s tid rid h⟩

/-- Concrete state refuting claim C2 as stated: txn 1 holds the exclusive lock on
RID 0, the younger txn 2 holds nothing. -/
def c2state : LMState :=
  { txns := fun t =>
      if t = 1 then
        { state := TransactionState.GROWING, isolation := IsolationLevel.READ_COMMITTED,
          sharedSet := [], exclusiveSet := [0] }
      else
        { state := TransactionState.GROWING, isolation := IsolationLevel.READ_COMMITTED,
          sharedSet := [], exclusiveSet := [] },
    queues := fun _ =>
      { request_queue_ := [], shared_lock_holders_ := [], exclusive_lock_holder_ := 1,
        upgrading_ := INVALID_TXN_ID } }

/-- Counterexample to claim C2 as stated: the exclusion invariant holds before, the
younger txn 2 calls LockShared on an RID exclusively held by txn 1, the call returns
true, and afterwards the queue records both an exclusive holder and a shared holder. -/
theorem C2_counterexample :
    ExclInv (c2state.queues 0) ∧
    (LockShared c2state 2 0).2 = true ∧
    ((LockShared c2state 2 0).1.queues 0).exclusive_lock_holder_ = 1 ∧
    ((LockShared c2state 2 0).1.queues 0).shared_lock_holders_ = [2] ∧
    ¬ ExclInv ((LockShared c2state 2 0).1.queues 0) := by decide

/-- Concrete state for the C2 witness: txn 2 exclusively holds RID 0; the older
txn 1 requests a shared lock (it preempts), and txn 5 releases on a fresh queue. -/
def c2wstate : LMState :=
  { txns := fun t =>
      if t = 2 then
        { state := TransactionState.GROWING, isolation := IsolationLevel.READ_COMMITTED,
          sharedSet := [], exclusiveSet := [0] }
      else
        { state := TransactionState.GROWING, isolation := IsolationLevel.READ_COMMITTED,
          sharedSet := [], exclusiveSet := [] },
    queues := fun _ =>
      { request_queue_ := [], shared_lock_holders_ := [], exclusive_lock_holder_ := 2,
        upgrading_ := INVALID_TXN_ID } }

/-- Witness for C2 (amended) at concrete inputs. -/
theorem C2_witness :
    ExclInv ((LockShared c2wstate 1 0).1.queues 0) ∧
    ExclInv ((Unlock c2wstate 5 0).1.queues 0) ∧
    ExclInv ((LockExclusive c2wstate 3 0).1.queues 0) ∧
    ExclInv ((LockUpgrade c2wstate 3 0).1.queues 0) :=
  ⟨(C2_lock_exclusion_amended c2wstate 1 0).1 (by decide) (Or.inr (by decide)),
   (C2_lock_exclusion_amended c2wstate 5 0).2.2.2 (by decide),
   (C2_lock_exclusion_amended c2wstate 3 0).2.1 (by decide),
   (C2_lock_exclusion_amended c2wstate 3 0).2.2.1 (by decide)⟩

/-- Claim C8 (amended): a lock request for a lock already held in the
required-or-stronger mode returns true and leaves the whole state unchanged (so
nothing is queued), provided the call passes the policy checks that the code runs
first: the transaction is not ABORTED; for LockShared the isolation level is not
READ_UNCOMMITTED and it is not a REPEATABLE_READ transaction in SHRINKING; for
LockExclusive the transaction is not in SHRINKING. -/
theorem C8_already_held_returns_true_amended (s : LMState) (tid : Int) (rid : Nat) :
    ((s.txns tid).state ≠ TransactionState.ABORTED →
      ¬ ((s.txns tid).isolation = IsolationLevel.REPEATABLE_READ ∧
        (s.txns tid).state = TransactionState.SHRINKING) →
      (s.txns tid).isolation ≠ IsolationLevel.READ_UNCOMMITTED →
      ((s.txns tid).sharedSet.contains rid = true ∨
        (s.txns tid).exclusiveSet.contains rid = true) →
      LockShared s tid rid = (s, true)) ∧
    ((s.txns tid).state ≠ TransactionState.ABORTED →
      (s.txns tid).state ≠ TransactionState.SHRINKING →
      (s.txns tid).exclusiveSet.contains rid = true →
      LockExclusive s tid rid = (s, LockOutcome.granted)) := by
  constructor
  · intro h1 h2 h3 h4
    rcases h4 with h4 | h4
    · have hm : rid ∈ (s.txns tid).sharedSet := by simpa using h4
      simp [LockShared, h1, h2, h3, hm]
    · have hm : rid ∈ (s.txns tid).exclusiveSet := by simpa using h4
      simp [LockShared, h1, h2, h3, hm]
  · intro h1 h2 h3
    have hm : rid ∈ (s.txns tid).exclusiveSet := by simpa using h3
    simp [LockExclusive, h1, h2, hm]

/-- Concrete state refuting claim C8 as stated: a REPEATABLE_READ transaction in
SHRINKING already holding the shared lock on RID 0. -/
def c8state : LMState :=
  { txns := fun _ =>
      { state := TransactionState.SHRINKING, isolation := IsolationLevel.REPEATABLE_READ,
        sharedSet := [0], exclusiveSet := [] },
    queues := fun _ =>
      { request_queue_ := [], shared_lock_holders_ := [1], exclusive_lock_holder_ := INVALID_TXN_ID,
        upgrading_ := INVALID_TXN_ID } }

/-- Counterexample to claim C8 as stated: txn 1 already holds the shared lock on
RID 0 but its LockShared call returns false (and aborts it) because the
REPEATABLE_READ-in-SHRINKING policy check runs before the already-held test. -/
theorem C8_counterexample :
    (c8state.txns 1).sharedSet.contains 0 = true ∧
    (c8state.txns 1).state ≠ TransactionState.ABORTED ∧
    (LockShared c8state 1 0).2 = false ∧
    ((LockShared c8state 1 0).1.txns 1).state = TransactionState.ABORTED := by decide

/-- Concrete state for the C8 witness: txn 2 (READ_COMMITTED, GROWING) holds the
shared lock on RID 5 and the exclusive lock on RID 6. -/
def c8wstate : LMState :=
  { txns := fun _ =>
      { state := TransactionState.GROWING, isolation := IsolationLevel.READ_COMMITTED,
        sharedSet := [5], exclusiveSet := [6] },
    queues := fun _ =>
      { request_queue_ := [], shared_lock_holders_ := [2], exclusive_lock_holder_ := INVALID_TXN_ID,
        upgrading_ := INVALID_TXN_ID } }

/-- Witness for C8 (amended) at concrete inputs. -/
theorem C8_witness :
    LockShared c8wstate 2 5 = (c8wstate, true) ∧
    LockExclusive c8wstate 2 6 = (c8wstate, LockOutcome.granted) :=
  ⟨(C8_already_held_returns_true_amended c8wstate 2 5).1 (by decide) (by decide) (by decide)
      (Or.inl (by decide)),
   (C8_already_held_returns_true_amended c8wstate 2 6).2 (by decide) (by decide) (by decide)⟩

/-!
Extendible hash table embedding.

Keys and values are integers (the C++ code instantiates the template at
`<int, int, IntComparator>`; the comparator is equality).  A bucket page is a
list of slots, each carrying the entry and its occupied / readable bits
(the C++ char bitmaps, one bit per slot).  The buffer pool is an association
list from page ids to bucket contents; a freshly allocated page is zeroed.
The hash function and the layout constants BUCKET_ARRAY_SIZE (bucket capacity)
and MAX_DEPTH (directory capacity exponent) are parameters.
-/

/-- One slot of a bucket page: the (key, value) pair of array_ plus this slot's
bits of the occupied_ and readable_ bitmaps. -/
structure Slot where
  key : Int
  value : Int
  occupied : Bool
  readable : Bool
deriving DecidableEq, Repr

/-- HASH_TABLE_BUCKET_TYPE::GetValue: collect, in slot order, the values of every
readable slot whose key matches; the flag reports whether any matched. -/
def bucketGetValue : List Slot → Int → Bool × List Int
  | [], _ => (false, [])
  | sl :: rest, key =>
    let r := bucketGetValue rest key
    if sl.readable && sl.key == key then (true, sl.value :: r.2) else r

/-- HASH_TABLE_BUCKET_TYPE::NumReadable: number of set bits of readable_. -/
def NumReadable (b : List Slot) : Nat :=
  b.countP fun sl => sl.readable

/-- HASH_TABLE_BUCKET_TYPE::IsFull. -/
def IsFull (b : List Slot) : Bool :=
  NumReadable b == b.length

/-- HASH_TABLE_BUCKET_TYPE::IsEmpty. -/
def IsEmpty (b : List Slot) : Bool :=
  NumReadable b == 0

/-- HASH_TABLE_BUCKET_TYPE::Insert, src/storage/page/hash_table_bucket_page.cpp
lines 34-56: one scan rejects an exact duplicate among readable slots and records
the lowest non-readable index (insert_idx stays 0 when every slot is readable);
the code then writes the entry at insert_idx and sets its bits unconditionally. -/
def bucketInsert (b : List Slot) (key value : Int) : List Slot × Bool :=
  if b.any fun sl => sl.readable && sl.key == key && sl.value == value then (b, false)
  else
    let i := b.findIdx fun sl => !sl.readable
    let insert_idx := if i < b.length then i else 0
    (b.set insert_idx { key := key, value := value, occupied := true, readable := true }, true)

/-- HASH_TABLE_BUCKET_TYPE::Remove: clear the readable bit of the first readable
slot holding exactly (key, value); occupied stays set. -/
def bucketRemove : List Slot → Int → Int → List Slot × Bool
  | [], _, _ => ([], false)
  | sl :: rest, key, value =>
    if sl.readable && sl.key == key && sl.value == value then
      ({ sl with readable := false } :: rest, true)
    else
      let r := bucketRemove rest key value
      (sl :: r.1, r.2)

/-- Modelled from the spec: the directory page implementation
(src/storage/page/hash_table_directory_page.cpp) is not among the sources; its
state per spec section 3 is a global depth plus bucket_page_id and local_depth
arrays of length 2^MAX_DEPTH. -/
structure HashTableDirectoryPage where
  global_depth_ : Nat
  bucket_page_ids_ : List Int
  local_depths_ : List Nat
deriving DecidableEq, Repr

/-- Modelled from the spec: Size = 1 << global_depth. -/
def Size (d : HashTableDirectoryPage) : Nat := 2 ^ d.global_depth_

/-- Modelled from the spec: array read (unused slots of a zeroed page read 0). -/
def GetBucketPageId (d : HashTableDirectoryPage) (i : Nat) : Int :=
  d.bucket_page_ids_.getD i 0

/-- Modelled from the spec: array write. -/
def SetBucketPageId (d : HashTableDirectoryPage) (i : Nat) (pid : Int) :
    HashTableDirectoryPage :=
  { d with bucket_page_ids_ := d.bucket_page_ids_.set i pid }

/-- Modelled from the spec: array read. -/
def GetLocalDepth (d : HashTableDirectoryPage) (i : Nat) : Nat :=
  d.local_depths_.getD i 0

/-- Modelled from the spec: array write. -/
def SetLocalDepth (d : HashTableDirectoryPage) (i : Nat) (l : Nat) :
    HashTableDirectoryPage :=
  { d with local_depths_ := d.local_depths_.set i l }

/-- Modelled from the spec: IncrLocalDepth. -/
def IncrLocalDepth (d : HashTableDirectoryPage) (i : Nat) : HashTableDirectoryPage :=
  SetLocalDepth d i (GetLocalDepth d i + 1)

/-- Modelled from the spec: DecrLocalDepth. -/
def DecrLocalDepth (d : HashTableDirectoryPage) (i : Nat) : HashTableDirectoryPage :=
  SetLocalDepth d i (GetLocalDepth d i - 1)

/-- Modelled from the spec: SplitImageIndex(slot) = slot XOR (1 << (local_depth - 1)). -/
def GetSplitImageIndex (d : HashTableDirectoryPage) (i : Nat) : Nat :=
  i ^^^ 2 ^ (GetLocalDepth d i - 1)

/-- Modelled from the spec: CanShrink is true iff every in-use slot has
local_depth strictly below global_depth. -/
def CanShrink (d : HashTableDirectoryPage) : Bool :=
  (List.range (Size d)).all fun s => GetLocalDepth d s < d.global_depth_

/-- State of the whole table: the directory page, the buffer pool's bucket pages
(page id to contents; absent pages read as zeroed), and the next page id the
buffer pool will allocate (allocation is monotone, page id 0 is the directory). -/
structure HTState where
  dir : HashTableDirectoryPage
  pages : List (Int × List Slot)
  next_page_id : Int
deriving DecidableEq, Repr

/-- A zeroed bucket page of capacity N: no slot occupied or readable. -/
def emptyBucket (N : Nat) : List Slot :=
  List.replicate N { key := 0, value := 0, occupied := false, readable := false }

/-- BufferPoolManager::FetchPage of a bucket page (a page never written reads zeroed). -/
def lookupPage (N : Nat) (ps : List (Int × List Slot)) (pid : Int) : List Slot :=
  match ps.find? fun e => e.1 == pid with
  | some e => e.2
  | none => emptyBucket N

/-- Write back a bucket page. -/
def setPage : List (Int × List Slot) → Int → List Slot → List (Int × List Slot)
  | [], pid, b => [(pid, b)]
  | e :: rest, pid, b => if e.1 == pid then (pid, b) :: rest else e :: setPage rest pid b

/-- BufferPoolManager::DeletePage. -/
def erasePage (ps : List (Int × List Slot)) (pid : Int) : List (Int × List Slot) :=
  ps.filter fun e => e.1 != pid

/-- HASH_TABLE_TYPE::KeyToDirectoryIndex: Hash(key) & GetGlobalDepthMask(). -/
def KeyToDirectoryIndex (hash : Int → Nat) (key : Int) (d : HashTableDirectoryPage) : Nat :=
  hash key &&& (2 ^ d.global_depth_ - 1)

/-- HASH_TABLE_TYPE::KeyToPageId. -/
def KeyToPageId (hash : Int → Nat) (key : Int) (d : HashTableDirectoryPage) : Int :=
  GetBucketPageId d (KeyToDirectoryIndex hash key d)

theorem KeyToDirectoryIndex_eq_mod (hash : Int → Nat) (key : Int)
    (d : HashTableDirectoryPage) :
    KeyToDirectoryIndex hash key d = hash key % 2 ^ d.global_depth_ :=
  Nat.and_pow_two_sub_one_eq_mod (hash key) d.global_depth_

/-- HASH_TABLE_TYPE::GetValue (table search), extendible_hash_table.cpp lines 93-112. -/
def GetValue (N : Nat) (hash : Int → Nat) (s : HTState) (key : Int) : Bool × List Int :=
  bucketGetValue (lookupPage N s.pages (KeyToPageId hash key s.dir)) key

/-- The directory-copy loop of the grow path (Insert lines 162-165): each new upper
slot mirrors its twin cur - old_size. -/
def copyLoop (old_size : Nat) : HashTableDirectoryPage → List Nat → HashTableDirectoryPage
  | dd, [] => dd
  | dd, cur :: rest =>
    copyLoop old_size
      (SetLocalDepth (SetBucketPageId dd cur (GetBucketPageId dd (cur - old_size))) cur
        (GetLocalDepth dd (cur - old_size))) rest

/-- The directory-rewrite loop of the split path (Insert lines 200-207). -/
def splitLoop (bucket_page_id new_pid : Int) (bucket_idx local_depth : Nat) :
    HashTableDirectoryPage → List Nat → HashTableDirectoryPage
  | dd, [] => dd
  | dd, cur :: rest =>
    let dd1 :=
      if GetBucketPageId dd cur == bucket_page_id then
        let dd0 :=
          if (cur &&& (2 ^ local_depth - 1)) != (bucket_idx &&& (2 ^ local_depth - 1)) then
            SetBucketPageId dd cur new_pid
          else dd
        SetLocalDepth dd0 cur local_depth
      else dd
    splitLoop bucket_page_id new_pid bucket_idx local_depth dd1 rest

/-- The redistribution loop shared by both split shapes (Insert lines 178-187 and
210-219): walk the readable slots of the old bucket in index order; an entry whose
key now routes elsewhere is inserted into the new bucket and removed from the old. -/
def redistLoop (move : Int → Bool) :
    List Slot × List Slot → List Nat → List Slot × List Slot
  | p, [] => p
  | p, j :: rest =>
    let p1 :=
      match p.1.get? j with
      | some sl =>
        if sl.readable && move sl.key then
          ((bucketRemove p.1 sl.key sl.value).1, (bucketInsert p.2 sl.key sl.value).1)
        else p
      | none => p
    redistLoop move p1 rest

/-- HASH_TABLE_TYPE::Insert, extendible_hash_table.cpp lines 117-230, with explicit
fuel for the tail recursion (none = fuel exhausted). -/
def Insert (N maxDepth : Nat) (hash : Int → Nat) :
    Nat → HTState → Int → Int → Option (HTState × Bool)
  | 0, _, _, _ => none
  | Nat.succ fuel, s, key, value =>
    let d := s.dir
    let bucket_idx := KeyToDirectoryIndex hash key d
    let bucket_page_id := GetBucketPageId d bucket_idx
    let b := lookupPage N s.pages bucket_page_id
    if !(IsFull b) then
      let r := bucketInsert b key value
      some ({ s with pages := setPage s.pages bucket_page_id r.1 }, r.2)
    else if !(IsFull b) then
      Insert N maxDepth hash fuel s key value
    else if d.global_depth_ = GetLocalDepth d bucket_idx then
      if 2 ^ d.global_depth_ * 2 > 2 ^ maxDepth then some (s, false)
      else
        let old_size := 2 ^ d.global_depth_
        let d1 := { d with global_depth_ := d.global_depth_ + 1 }
        let d2 := copyLoop old_size d1 ((List.range old_size).map fun i => old_size + i)
        let new_bucket_page_id := s.next_page_id
        let pages1 := setPage s.pages new_bucket_page_id (emptyBucket N)
        let d3 := IncrLocalDepth d2 bucket_idx
        let split_idx := GetSplitImageIndex d3 bucket_idx
        let d4 := SetBucketPageId (IncrLocalDepth d3 split_idx) split_idx new_bucket_page_id
        let moved := redistLoop
          (fun k => KeyToDirectoryIndex hash k d4 != bucket_idx)
          (lookupPage N pages1 bucket_page_id, lookupPage N pages1 new_bucket_page_id)
          (List.range (lookupPage N pages1 bucket_page_id).length)
        let pages2 := setPage (setPage pages1 bucket_page_id moved.1) new_bucket_page_id moved.2
        Insert N maxDepth hash fuel
          { dir := d4, pages := pages2, next_page_id := s.next_page_id + 1 } key value
    else
      let new_bucket_page_id := s.next_page_id
      let pages1 := setPage s.pages new_bucket_page_id (emptyBucket N)
      let d1 := IncrLocalDepth d bucket_idx
      let local_depth := GetLocalDepth d1 bucket_idx
      let d2 := splitLoop bucket_page_id new_bucket_page_id bucket_idx local_depth d1
        (List.range (Size d1))
      let moved := redistLoop
        (fun k => KeyToPageId hash k d2 != bucket_page_id)
        (lookupPage N pages1 bucket_page_id, lookupPage N pages1 new_bucket_page_id)
        (List.range (lookupPage N pages1 bucket_page_id).length)
      let pages2 := setPage (setPage pages1 bucket_page_id moved.1) new_bucket_page_id moved.2
      Insert N maxDepth hash fuel
        { dir := d2, pages := pages2, next_page_id := s.next_page_id + 1 } key value

/-- The directory-rewrite loop of Merge (extendible_hash_table.cpp lines 300-306). -/
def mergeRedirect (bucket_page_id split_pid : Int) (bucket_idx : Nat) :
    HashTableDirectoryPage → List Nat → HashTableDirectoryPage
  | dd, [] => dd
  | dd, i :: rest =>
    let dd1 :=
      if GetBucketPageId dd i == bucket_page_id || GetBucketPageId dd i == split_pid then
        SetLocalDepth (SetBucketPageId dd i split_pid) i (GetLocalDepth dd bucket_idx)
      else dd
    mergeRedirect bucket_page_id split_pid bucket_idx dd1 rest

/-- The while-CanShrink loop of Merge (lines 308-310); the fuel exceeds the global
depth, so it runs exactly as long as CanShrink holds. -/
def shrinkLoop : Nat → HashTableDirectoryPage → HashTableDirectoryPage
  | 0, d => d
  | Nat.succ n, d =>
    if CanShrink d then shrinkLoop n { d with global_depth_ := d.global_depth_ - 1 } else d

/-- HASH_TABLE_TYPE::Merge, extendible_hash_table.cpp lines 268-315. -/
def Merge (N : Nat) (hash : Int → Nat) (s : HTState) (key value : Int) : HTState :=
  let d := s.dir
  let bucket_idx := KeyToDirectoryIndex hash key d
  let split_image_bucket_idx := GetSplitImageIndex d bucket_idx
  let bucket_page_id := GetBucketPageId d bucket_idx
  let bucket_local_depth := GetLocalDepth d bucket_idx
  let split_image_local_depth := GetLocalDepth d split_image_bucket_idx
  let b := lookupPage N s.pages bucket_page_id
  if !(IsEmpty b) || decide (bucket_local_depth ≤ 1) ||
      bucket_local_depth != split_image_local_depth then s
  else
    let split_image_bucket_page_id := GetBucketPageId d split_image_bucket_idx
    let d1 := DecrLocalDepth d split_image_bucket_idx
    let d2 := DecrLocalDepth d1 bucket_idx
    let d3 := SetBucketPageId d2 bucket_idx split_image_bucket_page_id
    let pages1 := erasePage s.pages bucket_page_id
    let d4 := mergeRedirect bucket_page_id split_image_bucket_page_id bucket_idx d3
      (List.range (Size d3))
    let d5 := shrinkLoop (d4.global_depth_ + 1) d4
    { dir := d5, pages := pages1, next_page_id := s.next_page_id }

/-- HASH_TABLE_TYPE::Remove, extendible_hash_table.cpp lines 240-263: remove from the
routed bucket, and when the bucket became empty invoke Merge with the same key. -/
def Remove (N : Nat) (hash : Int → Nat) (s : HTState) (key value : Int) : HTState × Bool :=
  let bucket_page_id := KeyToPageId hash key s.dir
  let r := bucketRemove (lookupPage N s.pages bucket_page_id) key value
  let s1 := { s with pages := setPage s.pages bucket_page_id r.1 }
  if IsEmpty r.1 then (Merge N hash s1 key value, r.2) else (s1, r.2)

/-- The constructor ExtendibleHashTable(...), extendible_hash_table.cpp lines 25-48:
page 0 is the directory, pages 1 and 2 the two initial buckets, global depth 1,
both local depths 1. -/
def initState (N maxDepth : Nat) : HTState :=
  { dir :=
      { global_depth_ := 1,
        bucket_page_ids_ := ((List.replicate (2 ^ maxDepth) (0 : Int)).set 0 1).set 1 2,
        local_depths_ := ((List.replicate (2 ^ maxDepth) 0).set 0 1).set 1 1 },
    pages := [(1, emptyBucket N), (2, emptyBucket N)],
    next_page_id := 3 }

/-- Claim C1 is a code bug: on a full bucket holding (1,1) and (2,2), inserting the
absent pair (3,3) must fail with false and leave the bucket unchanged, but the code
(which computes has_slot yet never tests it before writing) overwrites slot 0 with
the new entry and returns true. -/
theorem C1_full_bucket_insert_overwrites :
    IsFull [Slot.mk 1 1 true true, Slot.mk 2 2 true true] = true ∧
    (¬ ∃ sl ∈ [Slot.mk 1 1 true true, Slot.mk 2 2 true true],
       sl.readable = true ∧ sl.key = 3 ∧ sl.value = 3) ∧
    bucketInsert [Slot.mk 1 1 true true, Slot.mk 2 2 true true] 3 3 =
      ([Slot.mk 3 3 true true, Slot.mk 2 2 true true], true) := by decide

/-- The two branches of claim C1 that the code does honor: a present duplicate is
rejected with false and no change, and with a free slot the entry goes to the
lowest-indexed non-readable slot with both bits set and result true. -/
theorem C1_ok_branches (b : List Slot) (key value : Int) :
    ((b.any fun sl => sl.readable && sl.key == key && sl.value == value) = true →
      bucketInsert b key value = (b, false)) ∧
    ((b.any fun sl => sl.readable && sl.key == key && sl.value == value) = false →
      ∀ i, b.findIdx (fun sl => !sl.readable) = i → i < b.length →
      bucketInsert b key value =
        (b.set i { key := key, value := value, occupied := true, readable := true }, true)) := by
  constructor
  · intro h
    simp [bucketInsert, h]
  · intro h i hi hlen
    simp [bucketInsert, h, hi, hlen]

/-- Witness for the honored branches of C1 at concrete buckets. -/
theorem C1_ok_branches_witness :
    bucketInsert [Slot.mk 1 1 true true, Slot.mk 2 2 false false] 1 1 =
      ([Slot.mk 1 1 true true, Slot.mk 2 2 false false], false) ∧
    bucketInsert [Slot.mk 1 1 true true, Slot.mk 2 2 false false] 3 3 =
      ([Slot.mk 1 1 true true, Slot.mk 3 3 true true], true) :=
  ⟨(C1_ok_branches [Slot.mk 1 1 true true, Slot.mk 2 2 false false] 1 1).1 (by decide),
   (C1_ok_branches [Slot.mk 1 1 true true, Slot.mk 2 2 false false] 3 3).2 (by decide) 1
     (by decide) (by decide)⟩

/-- Claim C5: when the routed bucket is full, its local depth equals the global
depth, and doubling the directory would exceed 2^MAX_DEPTH slots, Insert returns
false with the state — directory included — completely unchanged. -/
theorem C5_insert_maxdepth_unmutated (N maxDepth : Nat) (hash : Int → Nat) (fuel : Nat)
    (s : HTState) (key value : Int)
    (hfull : IsFull (lookupPage N s.pages (KeyToPageId hash key s.dir)) = true)
    (hLG : s.dir.global_depth_ = GetLocalDepth s.dir (KeyToDirectoryIndex hash key s.dir))
    (hmax : 2 ^ s.dir.global_depth_ * 2 > 2 ^ maxDepth) :
    Insert N maxDepth hash (fuel + 1) s key value = some (s, false) := by
  simp [Insert, KeyToPageId] at hfull ⊢
  simp [hfull, ← hLG, hmax]

/-- Witness for C5: a table at global depth 1 with MAX_DEPTH = 1 and a full
one-slot bucket. -/
theorem C5_witness :
    Insert 1 1 (fun k => k.toNat) 1
      { dir := { global_depth_ := 1, bucket_page_ids_ := [1, 2], local_depths_ := [1, 1] },
        pages := [(1, [Slot.mk 0 0 true true]), (2, emptyBucket 1)],
        next_page_id := 3 } 0 9 =
      some
        ({ dir := { global_depth_ := 1, bucket_page_ids_ := [1, 2], local_depths_ := [1, 1] },
           pages := [(1, [Slot.mk 0 0 true true]), (2, emptyBucket 1)],
           next_page_id := 3 }, false) :=
  C5_insert_maxdepth_unmutated 1 1 (fun k => k.toNat) 0 _ 0 9 (by decide) (by decide)
    (by decide)

theorem lookup_setPage_same (N : Nat) (ps : List (Int × List Slot)) (pid : Int)
    (b : List Slot) : lookupPage N (setPage ps pid b) pid = b := by
  induction ps with
  | nil => simp [setPage, lookupPage]
  | cons e rest ih =>
    by_cases he : e.1 = pid
    · simp [setPage, lookupPage, he]
    · simp only [setPage, lookupPage] at ih ⊢
      have hne : (e.1 == pid) = false := by simpa using he
      simp [hne, List.find?_cons, ih]

theorem getValue_set (k v : Int) (b : List Slot) (i : Nat) (h : i < b.length) :
    (bucketGetValue (b.set i (Slot.mk k v true true)) k).1 = true ∧
    v ∈ (bucketGetValue (b.set i (Slot.mk k v true true)) k).2 := by
  induction b generalizing i with
  | nil => simp at h
  | cons sl rest ih =>
    cases i with
    | zero => simp [bucketGetValue]
    | succ n =>
      have h2 : n < rest.length := by simpa using h
      rcases ih n h2 with ⟨ih1, ih2⟩
      by_cases hc : (sl.readable && sl.key == k) = true
      · simp [bucketGetValue, hc, ih2]
      · simp [bucketGetValue, hc, ih1, ih2]

theorem bucketInsert_getValue (b b2 : List Slot) (k v : Int) (hne : b ≠ [])
    (h : bucketInsert b k v = (b2, true)) :
    (bucketGetValue b2 k).1 = true ∧ v ∈ (bucketGetValue b2 k).2 := by
  unfold bucketInsert at h
  split at h
  · simp at h
  · have hlen : 0 < b.length := List.length_pos.2 hne
    rw [Prod.mk.injEq] at h
    rcases h with ⟨h1, -⟩
    rw [← h1]
    by_cases hi : b.findIdx (fun sl => !sl.readable) < b.length
    · simpa [hi] using getValue_set k v b _ hi
    · simpa [hi] using getValue_set k v b 0 hlen

/-- Number of readable occurrences of the exact pair (key, value) in a bucket. -/
def slotCount (b : List Slot) (key value : Int) : Nat :=
  b.countP fun sl => sl.readable && sl.key == key && sl.value == value

/-- Total number of readable occurrences of (key, value) across all buffer-pool pages. -/
def globalCount (ps : List (Int × List Slot)) (key value : Int) : Nat :=
  (ps.map fun e => slotCount e.2 key value).sum

theorem slotCount_emptyBucket (N : Nat) (k v : Int) : slotCount (emptyBucket N) k v = 0 := by
  induction N with
  | zero => rfl
  | succ n ih => simpa [emptyBucket, slotCount, List.replicate_succ]
      using ih

theorem bucketRemove_false (b : List Slot) (k v : Int)
    (h : (bucketRemove b k v).2 = false) : (bucketRemove b k v).1 = b := by
  induction b with
  | nil => rfl
  | cons sl rest ih =>
    by_cases hc : (sl.readable && sl.key == k && sl.value == v) = true
    · simp [bucketRemove, hc] at h
    · simp only [bucketRemove, hc, if_false, ite_false, Bool.false_eq_true] at h ⊢
      simp [ih h]

theorem bucketRemove_count (b : List Slot) (k v : Int)
    (h : (bucketRemove b k v).2 = true) :
    slotCount (bucketRemove b k v).1 k v + 1 = slotCount b k v := by
  induction b with
  | nil => simp [bucketRemove] at h
  | cons sl rest ih =>
    by_cases hc : (sl.readable && sl.key == k && sl.value == v) = true
    · simp only [bucketRemove, hc, if_true, ite_true]
      simp only [slotCount, List.countP_cons, hc]
      simp
    · simp only [bucketRemove, hc, if_false, ite_false, Bool.false_eq_true] at h ⊢
      have := ih h
      simp only [slotCount, List.countP_cons] at this ⊢
      omega

theorem bucketRemove_unreadable (b : List Slot) (k v : Int)
    (h : ∀ sl ∈ b, sl.readable = false) : (bucketRemove b k v).2 = false := by
  induction b with
  | nil => rfl
  | cons sl rest ih =>
    have h1 : sl.readable = false := h sl (by simp)
    unfold bucketRemove
    simp [h1]
    exact ih fun x hx => h x (by simp [hx])

theorem bucketRemove_emptyBucket (N : Nat) (k v : Int) :
    (bucketRemove (emptyBucket N) k v).2 = false := by
  refine bucketRemove_unreadable _ k v fun sl hsl => ?_
  have := List.eq_of_mem_replicate hsl
  rw [this]

theorem remove_found (N : Nat) (ps : List (Int × List Slot)) (pid : Int) (k v : Int)
    (h : (bucketRemove (lookupPage N ps pid) k v).2 = true) :
    ∃ b, ps.find? (fun e => e.1 == pid) = some (pid, b) ∧ lookupPage N ps pid = b := by
  unfold lookupPage at h ⊢
  split at h
  · rename_i e he
    refine ⟨e.2, ?_, by simp [he]⟩
    have hp := List.find?_some he
    have hpid : e.1 = pid := by simpa using hp
    rw [he, show e = (pid, e.2) from by rw [← hpid]]
  · exact absurd h (by simp [bucketRemove_emptyBucket])

theorem slotCount_pos (b : List Slot) (k v : Int)
    (h : (bucketRemove b k v).2 = true) : 1 ≤ slotCount b k v := by
  have := bucketRemove_count b k v h
  omega

theorem find_slotCount_le (ps : List (Int × List Slot)) (pid : Int) (b : List Slot)
    (k v : Int) (h : ps.find? (fun e => e.1 == pid) = some (pid, b)) :
    slotCount b k v ≤ globalCount ps k v := by
  induction ps with
  | nil => simp at h
  | cons e rest ih =>
    by_cases hc : (e.1 == pid) = true
    · simp only [List.find?_cons, hc, Option.some.injEq] at h
      subst h
      simp only [globalCount, List.map_cons, List.sum_cons]
      omega
    · rw [Bool.not_eq_true] at hc
      simp only [List.find?_cons, hc] at h
      have := ih h
      simp only [globalCount, List.map_cons, List.sum_cons] at this ⊢
      omega

theorem globalCount_setPage (ps : List (Int × List Slot)) (pid : Int)
    (bfound b2 : List Slot) (k v : Int)
    (h : ps.find? (fun e => e.1 == pid) = some (pid, bfound)) :
    globalCount (setPage ps pid b2) k v + slotCount bfound k v =
      globalCount ps k v + slotCount b2 k v := by
  induction ps with
  | nil => simp at h
  | cons e rest ih =>
    by_cases hc : (e.1 == pid) = true
    · simp only [List.find?_cons, hc, Option.some.injEq] at h
      subst h
      simp only [setPage, hc, if_true, ite_true, globalCount, List.map_cons, List.sum_cons]
      omega
    · rw [Bool.not_eq_true] at hc
      simp only [List.find?_cons, hc] at h
      have := ih h
      simp only [setPage, hc, if_false, ite_false, Bool.false_eq_true, globalCount,
        List.map_cons, List.sum_cons] at this ⊢
      omega

theorem globalCount_erase_le (ps : List (Int × List Slot)) (pid : Int) (k v : Int) :
    globalCount (erasePage ps pid) k v ≤ globalCount ps k v := by
  induction ps with
  | nil => simp [erasePage, globalCount]
  | cons e rest ih =>
    simp only [erasePage, globalCount, List.filter] at ih ⊢
    split
    · simp only [List.map_cons, List.sum_cons]
      omega
    · simp only [List.map_cons, List.sum_cons]
      omega

theorem mem_slotCount_le (ps : List (Int × List Slot)) (e : Int × List Slot) (k v : Int)
    (hmem : e ∈ ps) : slotCount e.2 k v ≤ globalCount ps k v := by
  induction ps with
  | nil => simp at hmem
  | cons x rest ih =>
    rcases List.mem_cons.1 hmem with hx | hx
    · subst hx
      simp only [globalCount, List.map_cons, List.sum_cons]
      omega
    · have := ih hx
      simp only [globalCount, List.map_cons, List.sum_cons] at this ⊢
      omega

theorem globalCount_lookup_zero (N : Nat) (ps : List (Int × List Slot)) (pid : Int)
    (k v : Int) (h : globalCount ps k v = 0) :
    slotCount (lookupPage N ps pid) k v = 0 := by
  unfold lookupPage
  split
  · rename_i e he
    have hmem : e ∈ ps := List.mem_of_find?_eq_some he
    have := mem_slotCount_le ps e k v hmem
    omega
  · exact slotCount_emptyBucket N k v

theorem getValue_not_mem_of_count_zero (b : List Slot) (k v : Int)
    (h : slotCount b k v = 0) : v ∉ (bucketGetValue b k).2 := by
  induction b with
  | nil => simp [bucketGetValue]
  | cons sl rest ih =>
    simp only [slotCount, List.countP_cons] at h
    have hrest : slotCount rest k v = 0 := by
      simp only [slotCount]
      omega
    unfold bucketGetValue
    by_cases hc : (sl.readable && sl.key == k) = true
    · simp only [hc, if_true, ite_true]
      intro hmem
      rcases List.mem_cons.1 hmem with hv | hv
      · have : (sl.readable && (sl.key == k) && (sl.value == v)) = true := by
          simp_all
        simp [this] at h
      · exact ih hrest hv
    · simp only [hc, if_false]
      simpa using ih hrest

theorem insert_getValue (N maxDepth : Nat) (hash : Int → Nat) (fuel : Nat) :
    ∀ (s s2 : HTState) (key value : Int),
      Insert N maxDepth hash fuel s key value = some (s2, true) →
      (GetValue N hash s2 key).1 = true ∧ value ∈ (GetValue N hash s2 key).2 := by
  induction fuel with
  | zero =>
    intro s s2 k v h
    simp [Insert] at h
  | succ fuel ih =>
    intro s s2 k v h
    rw [Insert] at h
    by_cases hfull : IsFull
        (lookupPage N s.pages (GetBucketPageId s.dir (KeyToDirectoryIndex hash k s.dir))) = true
    · simp only [hfull, Bool.not_true, Bool.false_eq_true, if_false, ite_false] at h
      split at h
      · split at h
        · simp at h
        · exact ih _ _ _ _ h
      · exact ih _ _ _ _ h
    · rw [Bool.not_eq_true] at hfull
      simp only [hfull, Bool.not_false, if_true, ite_true, Option.some.injEq,
        Prod.mk.injEq] at h
      obtain ⟨hstate, hsnd⟩ := h
      have hne : lookupPage N s.pages (GetBucketPageId s.dir (KeyToDirectoryIndex hash k s.dir))
          ≠ [] := by
        intro he
        rw [he] at hfull
        simp [IsFull, NumReadable] at hfull
      have hpair : bucketInsert
          (lookupPage N s.pages (GetBucketPageId s.dir (KeyToDirectoryIndex hash k s.dir))) k v =
          ((bucketInsert
            (lookupPage N s.pages (GetBucketPageId s.dir (KeyToDirectoryIndex hash k s.dir))) k
            v).1, true) := by
        rw [← hsnd]
      subst hstate
      unfold GetValue KeyToPageId
      simp only
      rw [lookup_setPage_same]
      exact bucketInsert_getValue _ _ k v hne hpair

theorem globalCount_merge_le (N : Nat) (hash : Int → Nat) (s : HTState) (key value k v : Int) :
    globalCount (Merge N hash s key value).pages k v ≤ globalCount s.pages k v := by
  simp only [Merge]
  split
  · exact Nat.le_refl _
  · simp only
    exact globalCount_erase_le _ _ _ _

theorem remove_not_getValue (N : Nat) (hash : Int → Nat) (s s2 : HTState) (k v : Int)
    (huniq : globalCount s.pages k v ≤ 1)
    (h : Remove N hash s k v = (s2, true)) :
    v ∉ (GetValue N hash s2 k).2 := by
  simp only [Remove] at h
  have hr2 : (bucketRemove (lookupPage N s.pages (KeyToPageId hash k s.dir)) k v).2 = true := by
    have := congrArg Prod.snd h
    simp only at this
    split at this
    · simpa using this
    · simpa using this
  obtain ⟨bf, hfind, hlook⟩ := remove_found N s.pages (KeyToPageId hash k s.dir) k v hr2
  have hge1 : 1 ≤ slotCount bf k v := by
    have := slotCount_pos (lookupPage N s.pages (KeyToPageId hash k s.dir)) k v hr2
    rwa [hlook] at this
  have hcnt := bucketRemove_count (lookupPage N s.pages (KeyToPageId hash k s.dir)) k v hr2
  rw [hlook] at hcnt
  have hle := find_slotCount_le s.pages (KeyToPageId hash k s.dir) bf k v hfind
  have hset := globalCount_setPage s.pages (KeyToPageId hash k s.dir) bf
    (bucketRemove (lookupPage N s.pages (KeyToPageId hash k s.dir)) k v).1 k v hfind
  rw [hlook] at hset
  have hzero : globalCount
      (setPage s.pages (KeyToPageId hash k s.dir) (bucketRemove bf k v).1) k v = 0 := by
    omega
  have hs2zero : globalCount s2.pages k v = 0 := by
    rw [hlook] at h
    split at h
    · have hs2 := congrArg Prod.fst h
      simp only at hs2
      rw [← hs2]
      have hm := globalCount_merge_le N hash
        { dir := s.dir, pages := setPage s.pages (KeyToPageId hash k s.dir)
            (bucketRemove bf k v).1, next_page_id := s.next_page_id } k v k v
      simp only at hm
      omega
    · have hs2 := congrArg Prod.fst h
      simp only at hs2
      rw [← hs2]
      exact hzero
  unfold GetValue
  exact getValue_not_mem_of_count_zero _ k v
    (globalCount_lookup_zero N s2.pages (KeyToPageId hash k s2.dir) k v hs2zero)

/-- Claim C3: immediately after a successful Insert(key, value), GetValue(key)
returns true with value among the results; and immediately after a successful
Remove(key, value) from a table holding at most one readable copy of the pair (as
any single-threaded history of pairwise-unique inserts produces), GetValue(key) no
longer reports value. -/
theorem C3_hash_table_roundtrip (N maxDepth : Nat) (hash : Int → Nat) :
    (∀ (fuel : Nat) (s s2 : HTState) (key value : Int),
        Insert N maxDepth hash fuel s key value = some (s2, true) →
        (GetValue N hash s2 key).1 = true ∧ value ∈ (GetValue N hash s2 key).2) ∧
    (∀ (s s2 : HTState) (key value : Int),
        globalCount s.pages key value ≤ 1 →
        Remove N hash s key value = (s2, true) →
        value ∉ (GetValue N hash s2 key).2) :=
  ⟨fun fuel s s2 k v h => insert_getValue N maxDepth hash fuel s s2 k v h,
   fun s s2 k v h1 h2 => remove_not_getValue N hash s s2 k v h1 h2⟩

/-- The table state after inserting (0, 100) into a fresh table with bucket
capacity 1 and MAX_DEPTH 2, under the identity hash. -/
def c3s1 : HTState :=
  ((Insert 1 2 (fun k => k.toNat) 5 (initState 1 2) 0 100).getD (initState 1 2, false)).1

/-- The table state after then removing (0, 100). -/
def c3s2 : HTState := (Remove 1 (fun k => k.toNat) c3s1 0 100).1

/-- Witness for C3 at concrete inputs. -/
theorem C3_witness :
    ((GetValue 1 (fun k => k.toNat) c3s1 0).1 = true ∧
      (100 : Int) ∈ (GetValue 1 (fun k => k.toNat) c3s1 0).2) ∧
    (100 : Int) ∉ (GetValue 1 (fun k => k.toNat) c3s2 0).2 :=
  ⟨(C3_hash_table_roundtrip 1 2 (fun k => k.toNat)).1 5 (initState 1 2) c3s1 0 100 (by decide),
   (C3_hash_table_roundtrip 1 2 (fun k => k.toNat)).2 c3s1 c3s2 0 100 (by decide) (by decide)⟩

/-- The physical layout of a directory page: both arrays have 2^MAX_DEPTH entries
and the global depth never exceeds MAX_DEPTH. -/
def DirWF (d : HashTableDirectoryPage) (maxDepth : Nat) : Prop :=
  d.bucket_page_ids_.length = 2 ^ maxDepth ∧ d.local_depths_.length = 2 ^ maxDepth ∧
  d.global_depth_ ≤ maxDepth

theorem getB_setB_same (d : HashTableDirectoryPage) (i : Nat) (p : Int)
    (h : i < d.bucket_page_ids_.length) : GetBucketPageId (SetBucketPageId d i p) i = p := by
  simp [GetBucketPageId, SetBucketPageId, List.getD, List.getElem?_set, h]

theorem getB_setB_ne (d : HashTableDirectoryPage) (i j : Nat) (p : Int) (h : j ≠ i) :
    GetBucketPageId (SetBucketPageId d i p) j = GetBucketPageId d j := by
  have hne : i ≠ j := fun he => h he.symm
  simp [GetBucketPageId, SetBucketPageId, List.getD, List.getElem?_set, hne]

theorem getB_setL (d : HashTableDirectoryPage) (i l j : Nat) :
    GetBucketPageId (SetLocalDepth d i l) j = GetBucketPageId d j := rfl

theorem getL_setB (d : HashTableDirectoryPage) (i : Nat) (p : Int) (j : Nat) :
    GetLocalDepth (SetBucketPageId d i p) j = GetLocalDepth d j := rfl

theorem getL_setL_same (d : HashTableDirectoryPage) (i l : Nat)
    (h : i < d.local_depths_.length) : GetLocalDepth (SetLocalDepth d i l) i = l := by
  simp [GetLocalDepth, SetLocalDepth, List.getD, List.getElem?_set, h]

theorem getL_setL_ne (d : HashTableDirectoryPage) (i l j : Nat) (h : j ≠ i) :
    GetLocalDepth (SetLocalDepth d i l) j = GetLocalDepth d j := by
  have hne : i ≠ j := fun he => h he.symm
  simp [GetLocalDepth, SetLocalDepth, List.getD, List.getElem?_set, hne]

theorem getL_setL_self (d : HashTableDirectoryPage) (i j : Nat) :
    GetLocalDepth (SetLocalDepth d i (GetLocalDepth d i)) j = GetLocalDepth d j := by
  by_cases hj : j = i
  · subst hj
    by_cases hlt : j < d.local_depths_.length
    · exact getL_setL_same d j _ hlt
    · simp [GetLocalDepth, SetLocalDepth, List.getD, List.getElem?_set, hlt,
        List.getElem?_eq_none (by omega : d.local_depths_.length ≤ j)]
  · exact getL_setL_ne d i _ j hj

theorem mergeRedirect_append (p q : Int) (idx : Nat) (D : HashTableDirectoryPage)
    (l1 l2 : List Nat) :
    mergeRedirect p q idx D (l1 ++ l2) = mergeRedirect p q idx (mergeRedirect p q idx D l1) l2 := by
  induction l1 generalizing D with
  | nil => rfl
  | cons i rest ih => simp only [List.cons_append, List.append_eq, mergeRedirect, ih]

theorem mergeRedirect_global (p q : Int) (idx : Nat) (l : List Nat)
    (D : HashTableDirectoryPage) :
    (mergeRedirect p q idx D l).global_depth_ = D.global_depth_ := by
  induction l generalizing D with
  | nil => rfl
  | cons i rest ih =>
    simp only [mergeRedirect]
    rw [ih]
    split <;> rfl

theorem mergeRedirect_lenB (p q : Int) (idx : Nat) (l : List Nat)
    (D : HashTableDirectoryPage) :
    (mergeRedirect p q idx D l).bucket_page_ids_.length = D.bucket_page_ids_.length := by
  induction l generalizing D with
  | nil => rfl
  | cons i rest ih =>
    simp only [mergeRedirect]
    rw [ih]
    split <;> simp [SetLocalDepth, SetBucketPageId]

theorem mergeRedirect_lenL (p q : Int) (idx : Nat) (l : List Nat)
    (D : HashTableDirectoryPage) :
    (mergeRedirect p q idx D l).local_depths_.length = D.local_depths_.length := by
  induction l generalizing D with
  | nil => rfl
  | cons i rest ih =>
    simp only [mergeRedirect]
    rw [ih]
    split <;> simp [SetLocalDepth, SetBucketPageId]

theorem mergeRedirect_localAt_idx (p q : Int) (idx : Nat) (l : List Nat)
    (D : HashTableDirectoryPage) :
    GetLocalDepth (mergeRedirect p q idx D l) idx = GetLocalDepth D idx := by
  induction l generalizing D with
  | nil => rfl
  | cons i rest ih =>
    simp only [mergeRedirect]
    rw [ih]
    split
    · by_cases hii : idx = i
      · subst hii
        exact getL_setL_self (SetBucketPageId D idx q) idx idx
      · rw [getL_setL_ne _ _ _ _ hii, getL_setB]
    · rfl

theorem mergeRedirect_getB_range (p q : Int) (idx : Nat) (n : Nat)
    (D : HashTableDirectoryPage) (hn : n ≤ D.bucket_page_ids_.length) :
    ∀ j, GetBucketPageId (mergeRedirect p q idx D (List.range n)) j =
      if j < n ∧ (GetBucketPageId D j = p ∨ GetBucketPageId D j = q) then q
      else GetBucketPageId D j := by
  induction n with
  | zero =>
    intro j
    simp [mergeRedirect]
  | succ n ih =>
    intro j
    have hn2 : n ≤ D.bucket_page_ids_.length := by omega
    rw [show n + 1 = Nat.succ n from rfl, List.range_succ, mergeRedirect_append]
    have hgetn : GetBucketPageId (mergeRedirect p q idx D (List.range n)) n =
        GetBucketPageId D n := by
      rw [ih hn2 n]
      simp
    simp only [mergeRedirect]
    by_cases hcond : (GetBucketPageId (mergeRedirect p q idx D (List.range n)) n == p ||
        GetBucketPageId (mergeRedirect p q idx D (List.range n)) n == q) = true
    · rw [if_pos hcond]
      rw [hgetn] at hcond
      have hcondD : GetBucketPageId D n = p ∨ GetBucketPageId D n = q := by
        simpa using hcond
      by_cases hj : j = n
      · rw [getB_setL, hj]
        have hset : GetBucketPageId (SetBucketPageId (mergeRedirect p q idx D (List.range n)) n
            q) n = q := by
          apply getB_setB_same
          simp only [mergeRedirect_lenB]
          omega
        rw [hset, if_pos ⟨by omega, hj ▸ hcondD⟩]
      · rw [getB_setL, getB_setB_ne _ _ _ _ hj, ih hn2 j]
        have hiff : (j < n + 1) ↔ (j < n) := by omega
        simp only [hiff]
    · rw [if_neg hcond]
      rw [hgetn] at hcond
      have hcondD : ¬ (GetBucketPageId D n = p ∨ GetBucketPageId D n = q) := by
        simpa using hcond
      rw [ih hn2 j]
      by_cases hj : j = n
      · rw [if_neg (by rw [hj]; omega), if_neg (by rw [hj]; tauto)]
      · have hiff : (j < n + 1) ↔ (j < n) := by omega
        simp only [hiff]

theorem mergeRedirect_getL_range (p q : Int) (idx : Nat) (n : Nat)
    (D : HashTableDirectoryPage) (hnb : n ≤ D.bucket_page_ids_.length)
    (hnl : n ≤ D.local_depths_.length) :
    ∀ j, GetLocalDepth (mergeRedirect p q idx D (List.range n)) j =
      if j < n ∧ (GetBucketPageId D j = p ∨ GetBucketPageId D j = q) then GetLocalDepth D idx
      else GetLocalDepth D j := by
  induction n with
  | zero =>
    intro j
    simp [mergeRedirect]
  | succ n ih =>
    intro j
    have hn2 : n ≤ D.bucket_page_ids_.length := by omega
    have hn3 : n ≤ D.local_depths_.length := by omega
    rw [show n + 1 = Nat.succ n from rfl, List.range_succ, mergeRedirect_append]
    have hgetn : GetBucketPageId (mergeRedirect p q idx D (List.range n)) n =
        GetBucketPageId D n := by
      rw [mergeRedirect_getB_range p q idx n D hn2 n]
      simp
    have hlidx : GetLocalDepth (mergeRedirect p q idx D (List.range n)) idx =
        GetLocalDepth D idx := mergeRedirect_localAt_idx p q idx (List.range n) D
    simp only [mergeRedirect]
    by_cases hcond : (GetBucketPageId (mergeRedirect p q idx D (List.range n)) n == p ||
        GetBucketPageId (mergeRedirect p q idx D (List.range n)) n == q) = true
    · rw [if_pos hcond]
      rw [hgetn] at hcond
      have hcondD : GetBucketPageId D n = p ∨ GetBucketPageId D n = q := by
        simpa using hcond
      by_cases hj : j = n
      · rw [hj]
        have hset : GetLocalDepth (SetLocalDepth
            (SetBucketPageId (mergeRedirect p q idx D (List.range n)) n q) n
            (GetLocalDepth (mergeRedirect p q idx D (List.range n)) idx)) n =
            GetLocalDepth (mergeRedirect p q idx D (List.range n)) idx := by
          apply getL_setL_same
          simp only [SetBucketPageId, mergeRedirect_lenL]
          omega
        rw [hset, hlidx, if_pos ⟨by omega, hcondD⟩]
      · rw [getL_setL_ne _ _ _ _ hj, getL_setB, ih hn2 hn3 j]
        have hiff : (j < n + 1) ↔ (j < n) := by omega
        simp only [hiff]
    · rw [if_neg hcond]
      rw [hgetn] at hcond
      have hcondD : ¬ (GetBucketPageId D n = p ∨ GetBucketPageId D n = q) := by
        simpa using hcond
      rw [ih hn2 hn3 j]
      by_cases hj : j = n
      · rw [if_neg (by rw [hj]; omega), if_neg (by rw [hj]; tauto)]
      · have hiff : (j < n + 1) ↔ (j < n) := by omega
        simp only [hiff]

theorem dirExt (d1 d2 : HashTableDirectoryPage) (h1 : d1.global_depth_ = d2.global_depth_)
    (h2 : d1.bucket_page_ids_ = d2.bucket_page_ids_)
    (h3 : d1.local_depths_ = d2.local_depths_) : d1 = d2 := by
  cases d1
  cases d2
  simp_all

/-- The behavior claim C6 describes for Merge, written from its words: a no-op
unless the target bucket is still empty, its local depth exceeds 1, and it equals
the split image's local depth; otherwise decrement the two local depths, redirect
every in-use slot that pointed at the deleted page or at the split image's page to
the split image's page with the decremented local depth, delete the empty bucket's
page, and halve the directory while CanShrink holds. -/
def Merge_spec (N : Nat) (hash : Int → Nat) (s : HTState) (key value : Int) : HTState :=
  let d := s.dir
  let idx := KeyToDirectoryIndex hash key d
  let img := GetSplitImageIndex d idx
  let pid := GetBucketPageId d idx
  let L := GetLocalDepth d idx
  if IsEmpty (lookupPage N s.pages pid) = true ∧ 1 < L ∧ L = GetLocalDepth d img then
    let imgPid := GetBucketPageId d img
    let d0 := DecrLocalDepth (DecrLocalDepth d img) idx
    let d1 :=
      { d0 with
        bucket_page_ids_ := (List.range d0.bucket_page_ids_.length).map fun i =>
          if i < Size d0 ∧ (GetBucketPageId d0 i = pid ∨ GetBucketPageId d0 i = imgPid) then
            imgPid
          else GetBucketPageId d0 i,
        local_depths_ := (List.range d0.local_depths_.length).map fun i =>
          if i < Size d0 ∧ (GetBucketPageId d0 i = pid ∨ GetBucketPageId d0 i = imgPid) then
            L - 1
          else GetLocalDepth d0 i }
    { dir := shrinkLoop (d1.global_depth_ + 1) d1, pages := erasePage s.pages pid,
      next_page_id := s.next_page_id }
  else s

theorem getElem_eq_getB (d : HashTableDirectoryPage) (i : Nat)
    (h : i < d.bucket_page_ids_.length) : d.bucket_page_ids_[i] = GetBucketPageId d i := by
  simp [GetBucketPageId, List.getD, List.getElem?_eq_getElem, h]

theorem getElem_eq_getL (d : HashTableDirectoryPage) (i : Nat)
    (h : i < d.local_depths_.length) : d.local_depths_[i] = GetLocalDepth d i := by
  simp [GetLocalDepth, List.getD, List.getElem?_eq_getElem, h]

theorem xor_pow_ne (a : Nat) (k : Nat) : a ^^^ 2 ^ k ≠ a := by
  intro he
  have h2 : a ^^^ 2 ^ k ^^^ a = a ^^^ a := by rw [he]
  simp [Nat.xor_comm, ← Nat.xor_assoc] at h2

/-- Claim C6: Merge is a no-op unless the target bucket is still empty, its local
depth exceeds 1, and it equals its split image's local depth; when all three hold it
acts exactly as the claim describes (Merge_spec): decrement both local depths,
redirect every in-use slot pointing at the deleted or image page to the image page
with the decremented depth, delete the empty bucket's page, and halve while
CanShrink. -/
theorem C6_merge_matches_claim (N maxDepth : Nat) (hash : Int → Nat) (s : HTState)
    (key value : Int) (hwf : DirWF s.dir maxDepth) :
    Merge N hash s key value = Merge_spec N hash s key value := by
  obtain ⟨hlb, hll, hg⟩ := hwf
  by_cases hc : IsEmpty (lookupPage N s.pages
        (GetBucketPageId s.dir (KeyToDirectoryIndex hash key s.dir))) = true ∧
      1 < GetLocalDepth s.dir (KeyToDirectoryIndex hash key s.dir) ∧
      GetLocalDepth s.dir (KeyToDirectoryIndex hash key s.dir) =
        GetLocalDepth s.dir (GetSplitImageIndex s.dir (KeyToDirectoryIndex hash key s.dir))
  · obtain ⟨hc1, hc2, hc3⟩ := hc
    have hcodeneg : ¬ ((!(IsEmpty (lookupPage N s.pages
          (GetBucketPageId s.dir (KeyToDirectoryIndex hash key s.dir)))) ||
        decide (GetLocalDepth s.dir (KeyToDirectoryIndex hash key s.dir) ≤ 1) ||
        (GetLocalDepth s.dir (KeyToDirectoryIndex hash key s.dir) !=
          GetLocalDepth s.dir (GetSplitImageIndex s.dir
            (KeyToDirectoryIndex hash key s.dir)))) = true) := by
      simp [hc1, hc3]
      omega
    simp only [Merge, Merge_spec]
    rw [if_neg hcodeneg, if_pos ⟨hc1, hc2, hc3⟩]
    set idx := KeyToDirectoryIndex hash key s.dir with hidx
    set img := GetSplitImageIndex s.dir idx with himg
    set pid := GetBucketPageId s.dir idx with hpid
    set imgPid := GetBucketPageId s.dir img with himgpid
    set d0 := DecrLocalDepth (DecrLocalDepth s.dir img) idx with hd0
    set d3 := SetBucketPageId d0 idx imgPid with hd3
    have hidxlt : idx < 2 ^ s.dir.global_depth_ := by
      rw [hidx, KeyToDirectoryIndex_eq_mod]
      exact Nat.mod_lt _ (by positivity)
    have hsize_le_b : 2 ^ s.dir.global_depth_ ≤ s.dir.bucket_page_ids_.length := by
      rw [hlb]
      exact Nat.pow_le_pow_right (by norm_num) hg
    have hsize_le_l : 2 ^ s.dir.global_depth_ ≤ s.dir.local_depths_.length := by
      rw [hll]
      exact Nat.pow_le_pow_right (by norm_num) hg
    have hne_img : idx ≠ img := by
      rw [himg, GetSplitImageIndex]
      exact fun he => xor_pow_ne idx _ he.symm
    have hlen0b : d0.bucket_page_ids_.length = s.dir.bucket_page_ids_.length := rfl
    have hlen0l : d0.local_depths_.length = s.dir.local_depths_.length := by
      rw [hd0]
      simp [DecrLocalDepth, SetLocalDepth]
    have hlen3b : d3.bucket_page_ids_.length = s.dir.bucket_page_ids_.length := by
      rw [hd3]
      simp [SetBucketPageId, hlen0b]
    have hlen3l : d3.local_depths_.length = s.dir.local_depths_.length := by
      rw [hd3]
      simpa [SetBucketPageId] using hlen0l
    have hsize3 : Size d3 = 2 ^ s.dir.global_depth_ := rfl
    have hg0B : ∀ i, GetBucketPageId d0 i = GetBucketPageId s.dir i := fun i => rfl
    have hg3B : ∀ i, i ≠ idx → GetBucketPageId d3 i = GetBucketPageId d0 i := by
      intro i hi
      rw [hd3]
      exact getB_setB_ne d0 idx i imgPid hi
    have hg3B_idx : GetBucketPageId d3 idx = imgPid := by
      rw [hd3]
      apply getB_setB_same
      rw [hlen0b]
      omega
    have hg3L : ∀ i, GetLocalDepth d3 i = GetLocalDepth d0 i := fun i => rfl
    have hL0idx : GetLocalDepth d0 idx = GetLocalDepth s.dir idx - 1 := by
      rw [hd0]
      have h1 : GetLocalDepth (DecrLocalDepth s.dir img) idx = GetLocalDepth s.dir idx :=
        getL_setL_ne _ _ _ _ hne_img
      rw [DecrLocalDepth]
      rw [getL_setL_same _ _ _ (by rw [show (DecrLocalDepth s.dir img).local_depths_.length =
        s.dir.local_depths_.length from by simp [DecrLocalDepth, SetLocalDepth]]; omega), h1]
    have hdir : mergeRedirect pid imgPid idx d3 (List.range (Size d3)) =
        { d0 with
          bucket_page_ids_ := (List.range d0.bucket_page_ids_.length).map fun i =>
            if i < Size d0 ∧ (GetBucketPageId d0 i = pid ∨ GetBucketPageId d0 i = imgPid) then
              imgPid
            else GetBucketPageId d0 i,
          local_depths_ := (List.range d0.local_depths_.length).map fun i =>
            if i < Size d0 ∧ (GetBucketPageId d0 i = pid ∨ GetBucketPageId d0 i = imgPid) then
              GetLocalDepth s.dir idx - 1
            else GetLocalDepth d0 i } := by
      have hsz : Size d3 ≤ d3.bucket_page_ids_.length := by
        rw [hsize3, hlen3b]
        exact hsize_le_b
      have hszl : Size d3 ≤ d3.local_depths_.length := by
        rw [hsize3, hlen3l]
        exact hsize_le_l
      apply dirExt
      · rw [mergeRedirect_global]
        rfl
      · apply List.ext_getElem
        · rw [mergeRedirect_lenB]
          simp [hlen3b, hlen0b]
        · intro i h1 h2
          rw [getElem_eq_getB _ _ h1, mergeRedirect_getB_range pid imgPid idx (Size d3) d3 hsz i]
          rw [List.getElem_map, List.getElem_range]
          by_cases hi : i = idx
          · subst hi
            rw [if_pos ⟨by rw [hsize3]; exact hidxlt, Or.inr hg3B_idx⟩,
              if_pos ⟨by rw [show Size d0 = 2 ^ s.dir.global_depth_ from rfl]; exact hidxlt,
                Or.inl (hg0B idx ▸ hpid.symm)⟩]
          · rw [hg3B i hi]
            rfl
      · apply List.ext_getElem
        · rw [mergeRedirect_lenL]
          simp [hlen3l, hlen0l]
        · intro i h1 h2
          rw [getElem_eq_getL _ _ h1,
            mergeRedirect_getL_range pid imgPid idx (Size d3) d3 hsz hszl i]
          rw [List.getElem_map, List.getElem_range]
          rw [hg3L idx, hL0idx]
          by_cases hi : i = idx
          · subst hi
            rw [if_pos ⟨by rw [hsize3]; exact hidxlt, Or.inr hg3B_idx⟩,
              if_pos ⟨by rw [show Size d0 = 2 ^ s.dir.global_depth_ from rfl]; exact hidxlt,
                Or.inl (hg0B idx ▸ hpid.symm)⟩]
          · rw [hg3B i hi]
            rfl
    rw [hdir]
  · have hcodepos : ((!(IsEmpty (lookupPage N s.pages
          (GetBucketPageId s.dir (KeyToDirectoryIndex hash key s.dir)))) ||
        decide (GetLocalDepth s.dir (KeyToDirectoryIndex hash key s.dir) ≤ 1) ||
        (GetLocalDepth s.dir (KeyToDirectoryIndex hash key s.dir) !=
          GetLocalDepth s.dir (GetSplitImageIndex s.dir
            (KeyToDirectoryIndex hash key s.dir)))) = true) := by
      by_contra hb
      rw [Bool.not_eq_true] at hb
      simp only [Bool.or_eq_false_iff, Bool.not_eq_false', decide_eq_false_iff_not,
        bne_eq_false_iff_eq] at hb
      exact hc ⟨hb.1.1, by omega, hb.2⟩
    simp only [Merge, Merge_spec]
    rw [if_pos hcodepos, if_neg hc]

/-- A concrete table where Merge genuinely fires: four directory slots at global
depth 2, slot 0 routed to the empty page 3, its split image slot 2 to page 5. -/
def c6state : HTState :=
  { dir := { global_depth_ := 2, bucket_page_ids_ := [3, 4, 5, 4],
             local_depths_ := [2, 2, 2, 2] },
    pages := [(3, emptyBucket 2),
              (4, [Slot.mk 1 1 true true, Slot.mk 0 0 false false]),
              (5, [Slot.mk 2 2 true true, Slot.mk 0 0 false false])],
    next_page_id := 6 }

/-- Witness for C6 at a concrete input (both the acting branch, via c6state, and the
no-op branch, via the initial table whose buckets have local depth 1). -/
theorem C6_witness :
    Merge 2 (fun k => k.toNat) c6state 0 0 = Merge_spec 2 (fun k => k.toNat) c6state 0 0 ∧
    Merge 2 (fun k => k.toNat) (initState 2 2) 0 0 =
      Merge_spec 2 (fun k => k.toNat) (initState 2 2) 0 0 :=
  ⟨C6_merge_matches_claim 2 2 (fun k => k.toNat) c6state 0 0
      ⟨by decide, by decide, by decide⟩,
   C6_merge_matches_claim 2 2 (fun k => k.toNat) (initState 2 2) 0 0
      ⟨by decide, by decide, by decide⟩⟩

theorem mod_pow_le (x l L : Nat) (h : l ≤ L) (y : Nat) (he : x % 2 ^ L = y % 2 ^ L) :
    x % 2 ^ l = y % 2 ^ l :=
  Nat.ModEq.of_dvd (pow_dvd_pow 2 h) he

theorem mod_pow_succ (x m : Nat) : x % 2 ^ (m + 1) = x % 2 ^ m + 2 ^ m * (x / 2 ^ m % 2) := by
  rw [pow_succ, Nat.mod_mul]

theorem xor_two_pow_eq_add (a k : Nat) (h : a < 2 ^ k) : a ^^^ 2 ^ k = a + 2 ^ k := by
  apply Nat.eq_of_testBit_eq
  intro i
  rw [Nat.testBit_xor]
  rcases lt_trichotomy i k with hik | rfl | hik
  · rw [Nat.testBit_two_pow_of_ne (by omega : k ≠ i), Bool.xor_false]
    rw [Nat.testBit_to_div_mod, Nat.testBit_to_div_mod]
    have h2 : (2 : Nat) ^ k = 2 ^ (k - i) * 2 ^ i := by
      rw [← pow_add]
      congr 1
      omega
    rw [h2, Nat.add_mul_div_right _ _ (by positivity)]
    obtain ⟨m, hm⟩ : ∃ m, k - i = m + 1 := ⟨k - i - 1, by omega⟩
    have h3 : (2 : Nat) ^ (k - i) % 2 = 0 := by
      rw [hm, pow_succ, Nat.mul_mod_left]
    have h4 : (a / 2 ^ i + 2 ^ (k - i)) % 2 = a / 2 ^ i % 2 := by
      omega
    rw [h4]
  · rw [Nat.testBit_two_pow_self, Nat.testBit_lt_two_pow h]
    rw [Nat.testBit_to_div_mod]
    have h5 : (a + 2 ^ i) / 2 ^ i = 1 := by
      rw [Nat.add_div_right _ (by positivity), Nat.div_eq_of_lt h]
    rw [h5]
    simp
  · rw [Nat.testBit_two_pow_of_ne (by omega : k ≠ i), Bool.xor_false]
    have hk : (2 : Nat) ^ (k + 1) ≤ 2 ^ i := Nat.pow_le_pow_right (by norm_num) (by omega)
    rw [Nat.testBit_lt_two_pow (by omega : a < 2 ^ i),
      Nat.testBit_lt_two_pow (by rw [pow_succ] at hk; omega : a + 2 ^ k < 2 ^ i)]

theorem xor_two_pow_mod (x m : Nat) : (x ^^^ 2 ^ m) % 2 ^ m = x % 2 ^ m := by
  apply Nat.eq_of_testBit_eq
  intro i
  rw [Nat.testBit_mod_two_pow, Nat.testBit_mod_two_pow]
  by_cases hi : i < m
  · rw [Nat.testBit_xor, Nat.testBit_two_pow_of_ne (by omega : m ≠ i), Bool.xor_false]
  · simp [hi]

theorem bitVal_xor_two_pow (x m : Nat) :
    (x ^^^ 2 ^ m) / 2 ^ m % 2 = 1 - x / 2 ^ m % 2 := by
  have h1 : (x ^^^ 2 ^ m).testBit m = !(x.testBit m) := by
    rw [Nat.testBit_xor, Nat.testBit_two_pow_self]
    cases x.testBit m <;> rfl
  rw [Nat.testBit_to_div_mod, Nat.testBit_to_div_mod] at h1
  rcases Nat.mod_two_eq_zero_or_one (x / 2 ^ m) with h | h
  all_goals rcases Nat.mod_two_eq_zero_or_one ((x ^^^ 2 ^ m) / 2 ^ m) with h2 | h2
  all_goals rw [h, h2] at h1
  all_goals simp at h1
  all_goals omega

/-- Membership in the class modulo 2^m splits into the two classes modulo 2^(m+1)
given by a slot and its image across bit m. -/
theorem class_split (t idx m : Nat) :
    t % 2 ^ m = idx % 2 ^ m ↔
      (t % 2 ^ (m + 1) = idx % 2 ^ (m + 1) ∨
       t % 2 ^ (m + 1) = (idx ^^^ 2 ^ m) % 2 ^ (m + 1)) := by
  have ht := mod_pow_succ t m
  have hi := mod_pow_succ idx m
  have hx := mod_pow_succ (idx ^^^ 2 ^ m) m
  have hlow := xor_two_pow_mod idx m
  have hbit := bitVal_xor_two_pow idx m
  have htlt : t % 2 ^ m < 2 ^ m := Nat.mod_lt _ (by positivity)
  have hilt : idx % 2 ^ m < 2 ^ m := Nat.mod_lt _ (by positivity)
  rcases Nat.mod_two_eq_zero_or_one (t / 2 ^ m) with h1 | h1
  all_goals rcases Nat.mod_two_eq_zero_or_one (idx / 2 ^ m) with h2 | h2
  all_goals rw [h1] at ht
  all_goals rw [h2] at hi
  all_goals rw [h2] at hbit
  all_goals rw [hbit] at hx
  all_goals constructor
  all_goals intro hh
  all_goals omega

theorem xor_mod_two_pow_succ_ne (x m : Nat) :
    (x ^^^ 2 ^ m) % 2 ^ (m + 1) ≠ x % 2 ^ (m + 1) := by
  have hx := mod_pow_succ (x ^^^ 2 ^ m) m
  have h2 := mod_pow_succ x m
  have hlow := xor_two_pow_mod x m
  have hbit := bitVal_xor_two_pow x m
  have hp : 0 < 2 ^ m := Nat.two_pow_pos m
  rcases Nat.mod_two_eq_zero_or_one (x / 2 ^ m) with h | h
  all_goals rw [h] at hbit h2
  all_goals rw [hbit] at hx
  all_goals omega

/-- The inductive invariant of the directory page: physical layout (array lengths,
depth bound), positive local depths, local below global (spec invariant D3),
uniformity of page id and local depth across each class of slots agreeing on the
local-depth low bits (spec invariant D1 plus depth uniformity), injectivity (a page
is referenced by exactly one class), and freshness of allocation (every referenced
page id is below the buffer pool's next page id). -/
structure DirInv (d : HashTableDirectoryPage) (npid : Int) (maxDepth : Nat) : Prop where
  lenB : d.bucket_page_ids_.length = 2 ^ maxDepth
  lenL : d.local_depths_.length = 2 ^ maxDepth
  gle : d.global_depth_ ≤ maxDepth
  dpos : ∀ t, t < Size d → 1 ≤ GetLocalDepth d t
  dbound : ∀ t, t < Size d → GetLocalDepth d t ≤ d.global_depth_
  unif : ∀ u t, u < Size d → t < Size d →
    t % 2 ^ GetLocalDepth d u = u % 2 ^ GetLocalDepth d u →
    GetBucketPageId d t = GetBucketPageId d u ∧ GetLocalDepth d t = GetLocalDepth d u
  inj : ∀ u t, u < Size d → t < Size d → GetBucketPageId d u = GetBucketPageId d t →
    u % 2 ^ GetLocalDepth d u = t % 2 ^ GetLocalDepth d u
  fresh : ∀ t, t < Size d → GetBucketPageId d t < npid

/-- Spec invariant D1, as the claim states it: directory slots whose low
local_depth(u) bits agree point at the same bucket page. -/
def D1 (d : HashTableDirectoryPage) : Prop :=
  ∀ u t, u < Size d → t < Size d →
    (t &&& (2 ^ GetLocalDepth d u - 1)) = (u &&& (2 ^ GetLocalDepth d u - 1)) →
    GetBucketPageId d t = GetBucketPageId d u

theorem D1_of_DirInv (d : HashTableDirectoryPage) (npid : Int) (maxDepth : Nat)
    (h : DirInv d npid maxDepth) : D1 d := by
  intro u t hu ht hbits
  rw [Nat.and_pow_two_sub_one_eq_mod, Nat.and_pow_two_sub_one_eq_mod] at hbits
  exact (h.unif u t hu ht hbits).1

theorem getB_global (d : HashTableDirectoryPage) (g' : Nat) (t : Nat) :
    GetBucketPageId { d with global_depth_ := g' } t = GetBucketPageId d t := rfl

theorem getL_global (d : HashTableDirectoryPage) (g' : Nat) (t : Nat) :
    GetLocalDepth { d with global_depth_ := g' } t = GetLocalDepth d t := rfl

theorem DirInv_shrinkLoop (maxDepth : Nat) (npid : Int) :
    ∀ (n : Nat) (d : HashTableDirectoryPage),
      DirInv d npid maxDepth → DirInv (shrinkLoop n d) npid maxDepth := by
  intro n
  induction n with
  | zero => exact fun d h => h
  | succ n ih =>
    intro d h
    rw [shrinkLoop]
    split
    · rename_i hcs
      apply ih
      have hcs2 : ∀ t, t < Size d → GetLocalDepth d t < d.global_depth_ := by
        intro t ht
        have := (List.all_eq_true.1 hcs) t (List.mem_range.2 ht)
        simpa using this
      have hsz : Size { d with global_depth_ := d.global_depth_ - 1 } ≤ Size d := by
        simp only [Size]
        exact Nat.pow_le_pow_right (by norm_num) (by omega)
      refine ⟨h.lenB, h.lenL, by have := h.gle; simp only; omega, ?_, ?_, ?_, ?_, ?_⟩
      · intro t ht
        rw [getL_global]
        exact h.dpos t (by omega)
      · intro t ht
        have := hcs2 t (by omega)
        rw [getL_global]
        simp only
        omega
      · intro u t hu ht hm
        rw [getL_global] at hm ⊢
        rw [getB_global, getB_global, getL_global]
        exact h.unif u t (by omega) (by omega) hm
      · intro u t hu ht hb
        rw [getB_global, getB_global] at hb
        rw [getL_global]
        exact h.inj u t (by omega) (by omega) hb
      · intro t ht
        rw [getB_global]
        exact h.fresh t (by omega)
    · exact h

theorem DirInv_Merge (N maxDepth : Nat) (hash : Int → Nat) (s : HTState) (key value : Int)
    (hinv : DirInv s.dir s.next_page_id maxDepth) :
    DirInv (Merge N hash s key value).dir (Merge N hash s key value).next_page_id maxDepth := by
  by_cases hc : IsEmpty (lookupPage N s.pages
        (GetBucketPageId s.dir (KeyToDirectoryIndex hash key s.dir))) = true ∧
      1 < GetLocalDepth s.dir (KeyToDirectoryIndex hash key s.dir) ∧
      GetLocalDepth s.dir (KeyToDirectoryIndex hash key s.dir) =
        GetLocalDepth s.dir (GetSplitImageIndex s.dir (KeyToDirectoryIndex hash key s.dir))
  · obtain ⟨hc1, hc2, hc3⟩ := hc
    have hcodeneg : ¬ ((!(IsEmpty (lookupPage N s.pages
          (GetBucketPageId s.dir (KeyToDirectoryIndex hash key s.dir)))) ||
        decide (GetLocalDepth s.dir (KeyToDirectoryIndex hash key s.dir) ≤ 1) ||
        (GetLocalDepth s.dir (KeyToDirectoryIndex hash key s.dir) !=
          GetLocalDepth s.dir (GetSplitImageIndex s.dir
            (KeyToDirectoryIndex hash key s.dir)))) = true) := by
      simp [hc1, hc3]
      omega
    simp only [Merge]
    rw [if_neg hcodeneg]
    set idx := KeyToDirectoryIndex hash key s.dir with hidxdef
    set img := GetSplitImageIndex s.dir idx with himgdef
    set pid := GetBucketPageId s.dir idx with hpiddef
    set imgPid := GetBucketPageId s.dir img with himgpiddef
    set L := GetLocalDepth s.dir idx with hLdef
    set d0 := DecrLocalDepth (DecrLocalDepth s.dir img) idx with hd0
    set d3 := SetBucketPageId d0 idx imgPid with hd3
    set d4 := mergeRedirect pid imgPid idx d3 (List.range (Size d3)) with hd4
    have hidxlt : idx < 2 ^ s.dir.global_depth_ := by
      rw [hidxdef, KeyToDirectoryIndex_eq_mod]
      exact Nat.mod_lt _ (by positivity)
    have hLg : L ≤ s.dir.global_depth_ := hinv.dbound idx hidxlt
    have himg_eq : img = idx ^^^ 2 ^ (L - 1) := by
      rw [himgdef, GetSplitImageIndex, ← hLdef]
    have himglt : img < 2 ^ s.dir.global_depth_ := by
      have h1 : 2 ^ (L - 1) < 2 ^ s.dir.global_depth_ :=
        Nat.pow_lt_pow_right (by norm_num) (by omega)
      rw [himg_eq]
      exact Nat.xor_lt_two_pow hidxlt h1
    have hne_img : idx ≠ img := by
      rw [himg_eq]
      exact fun he => xor_pow_ne idx _ he.symm
    have hsize_le_b : 2 ^ s.dir.global_depth_ ≤ s.dir.bucket_page_ids_.length := by
      rw [hinv.lenB]
      exact Nat.pow_le_pow_right (by norm_num) hinv.gle
    have hsize_le_l : 2 ^ s.dir.global_depth_ ≤ s.dir.local_depths_.length := by
      rw [hinv.lenL]
      exact Nat.pow_le_pow_right (by norm_num) hinv.gle
    have hlen0b : d0.bucket_page_ids_.length = s.dir.bucket_page_ids_.length := rfl
    have hlen0l : d0.local_depths_.length = s.dir.local_depths_.length := by
      rw [hd0]
      simp [DecrLocalDepth, SetLocalDepth]
    have hlen3b : d3.bucket_page_ids_.length = s.dir.bucket_page_ids_.length := by
      rw [hd3]
      simp [SetBucketPageId, hlen0b]
    have hlen3l : d3.local_depths_.length = s.dir.local_depths_.length := by
      rw [hd3]
      simpa [SetBucketPageId] using hlen0l
    have hsize3 : Size d3 = 2 ^ s.dir.global_depth_ := rfl
    have hg0B : ∀ i, GetBucketPageId d0 i = GetBucketPageId s.dir i := fun i => rfl
    have hg3B : ∀ i, i ≠ idx → GetBucketPageId d3 i = GetBucketPageId s.dir i := by
      intro i hi
      rw [hd3]
      rw [getB_setB_ne d0 idx i imgPid hi]
      exact hg0B i
    have hg3B_idx : GetBucketPageId d3 idx = imgPid := by
      rw [hd3]
      apply getB_setB_same
      rw [hlen0b]
      omega
    have hg3L : ∀ i, GetLocalDepth d3 i = GetLocalDepth d0 i := fun i => rfl
    have hL0idx : GetLocalDepth d0 idx = L - 1 := by
      rw [hd0]
      have h1 : GetLocalDepth (DecrLocalDepth s.dir img) idx = GetLocalDepth s.dir idx :=
        getL_setL_ne _ _ _ _ hne_img
      rw [DecrLocalDepth]
      rw [getL_setL_same _ _ _ (by rw [show (DecrLocalDepth s.dir img).local_depths_.length =
        s.dir.local_depths_.length from by simp [DecrLocalDepth, SetLocalDepth]]; omega), h1]
    have hg0L : ∀ i, i ≠ idx → i ≠ img → GetLocalDepth d0 i = GetLocalDepth s.dir i := by
      intro i h1 h2
      rw [hd0, DecrLocalDepth, DecrLocalDepth, getL_setL_ne _ _ _ _ h1,
        getL_setL_ne _ _ _ _ h2]
    have hC : ∀ t, t < 2 ^ s.dir.global_depth_ →
        (GetBucketPageId s.dir t = pid ↔ t % 2 ^ L = idx % 2 ^ L) := by
      intro t ht
      constructor
      · intro h
        exact (hinv.inj idx t hidxlt ht (hpiddef ▸ h.symm)).symm
      · intro h
        exact (hinv.unif idx t hidxlt ht h).1
    have hCimg : ∀ t, t < 2 ^ s.dir.global_depth_ →
        (GetBucketPageId s.dir t = imgPid ↔ t % 2 ^ L = img % 2 ^ L) := by
      intro t ht
      have hLimg : GetLocalDepth s.dir img = L := hc3.symm
      constructor
      · intro h
        have := hinv.inj img t himglt ht (himgpiddef ▸ h.symm)
        rw [hLimg] at this
        exact this.symm
      · intro h
        have := hinv.unif img t himglt ht (by rw [hLimg]; exact h)
        exact this.1
    have hQiff : ∀ t, t % 2 ^ (L - 1) = idx % 2 ^ (L - 1) ↔
        (t % 2 ^ L = idx % 2 ^ L ∨ t % 2 ^ L = img % 2 ^ L) := by
      intro t
      have hs := class_split t idx (L - 1)
      have hL1 : L - 1 + 1 = L := by omega
      rw [hL1, ← himg_eq] at hs
      exact hs
    have hQB : ∀ t, t < 2 ^ s.dir.global_depth_ →
        ((GetBucketPageId s.dir t = pid ∨ GetBucketPageId s.dir t = imgPid) ↔
          t % 2 ^ (L - 1) = idx % 2 ^ (L - 1)) := by
      intro t ht
      rw [hQiff t]
      constructor
      · rintro (h | h)
        · exact Or.inl ((hC t ht).1 h)
        · exact Or.inr ((hCimg t ht).1 h)
      · rintro (h | h)
        · exact Or.inl ((hC t ht).2 h)
        · exact Or.inr ((hCimg t ht).2 h)
    have hQimg : img % 2 ^ (L - 1) = idx % 2 ^ (L - 1) := by
      rw [himg_eq]
      exact xor_two_pow_mod idx (L - 1)
    have hszb3 : Size d3 ≤ d3.bucket_page_ids_.length := by
      rw [hsize3, hlen3b]
      exact hsize_le_b
    have hszl3 : Size d3 ≤ d3.local_depths_.length := by
      rw [hsize3, hlen3l]
      exact hsize_le_l
    have hB4 : ∀ j, j < 2 ^ s.dir.global_depth_ →
        GetBucketPageId d4 j =
          if j % 2 ^ (L - 1) = idx % 2 ^ (L - 1) then imgPid else GetBucketPageId s.dir j := by
      intro j hj
      rw [hd4, mergeRedirect_getB_range pid imgPid idx (Size d3) d3 hszb3 j]
      by_cases hQ : j % 2 ^ (L - 1) = idx % 2 ^ (L - 1)
      · rw [if_pos hQ]
        have hcond : GetBucketPageId d3 j = pid ∨ GetBucketPageId d3 j = imgPid := by
          by_cases hji : j = idx
          · exact Or.inr (by rw [hji, hg3B_idx])
          · rw [hg3B j hji]
            exact (hQB j hj).2 hQ
        rw [if_pos ⟨by rw [hsize3]; exact hj, hcond⟩]
      · rw [if_neg hQ]
        have hjidx : j ≠ idx := by
          intro he
          exact hQ (by rw [he])
        have hcond : ¬ (GetBucketPageId d3 j = pid ∨ GetBucketPageId d3 j = imgPid) := by
          rw [hg3B j hjidx]
          intro hor
          exact hQ ((hQB j hj).1 hor)
        rw [if_neg (fun hco => hcond hco.2), hg3B j hjidx]
    have hL4 : ∀ j, j < 2 ^ s.dir.global_depth_ →
        GetLocalDepth d4 j =
          if j % 2 ^ (L - 1) = idx % 2 ^ (L - 1) then L - 1 else GetLocalDepth s.dir j := by
      intro j hj
      rw [hd4, mergeRedirect_getL_range pid imgPid idx (Size d3) d3 hszb3 hszl3 j]
      have hval : GetLocalDepth d3 idx = L - 1 := (hg3L idx).trans hL0idx
      by_cases hQ : j % 2 ^ (L - 1) = idx % 2 ^ (L - 1)
      · rw [if_pos hQ]
        have hcond : GetBucketPageId d3 j = pid ∨ GetBucketPageId d3 j = imgPid := by
          by_cases hji : j = idx
          · exact Or.inr (by rw [hji, hg3B_idx])
          · rw [hg3B j hji]
            exact (hQB j hj).2 hQ
        rw [if_pos ⟨by rw [hsize3]; exact hj, hcond⟩, hval]
      · rw [if_neg hQ]
        have hjidx : j ≠ idx := by
          intro he
          exact hQ (by rw [he])
        have hjimg : j ≠ img := by
          intro he
          exact hQ (by rw [he]; exact hQimg)
        have hcond : ¬ (GetBucketPageId d3 j = pid ∨ GetBucketPageId d3 j = imgPid) := by
          rw [hg3B j hjidx]
          intro hor
          exact hQ ((hQB j hj).1 hor)
        rw [if_neg (fun hco => hcond hco.2), hg3L j, hg0L j hjidx hjimg]
    have hglob4 : d4.global_depth_ = s.dir.global_depth_ := by
      rw [hd4, mergeRedirect_global]
      rfl
    have hsize4 : Size d4 = 2 ^ s.dir.global_depth_ := by
      simp only [Size, hglob4]
    have hmain : DirInv d4 s.next_page_id maxDepth := by
      refine ⟨?_, ?_, ?_, ?_, ?_, ?_, ?_, ?_⟩
      · rw [hd4, mergeRedirect_lenB, hlen3b, hinv.lenB]
      · rw [hd4, mergeRedirect_lenL, hlen3l, hinv.lenL]
      · rw [hglob4]
        exact hinv.gle
      · intro t ht
        rw [hsize4] at ht
        rw [hL4 t ht]
        by_cases hQ : t % 2 ^ (L - 1) = idx % 2 ^ (L - 1)
        · rw [if_pos hQ]
          omega
        · rw [if_neg hQ]
          exact hinv.dpos t ht
      · intro t ht
        rw [hsize4] at ht
        rw [hL4 t ht, hglob4]
        by_cases hQ : t % 2 ^ (L - 1) = idx % 2 ^ (L - 1)
        · rw [if_pos hQ]
          omega
        · rw [if_neg hQ]
          exact hinv.dbound t ht
      · intro u t hu ht hm
        rw [hsize4] at hu ht
        by_cases hQu : u % 2 ^ (L - 1) = idx % 2 ^ (L - 1)
        · have hlu : GetLocalDepth d4 u = L - 1 := by rw [hL4 u hu, if_pos hQu]
          rw [hlu] at hm
          have hQt : t % 2 ^ (L - 1) = idx % 2 ^ (L - 1) := hm.trans hQu
          constructor
          · rw [hB4 t ht, hB4 u hu, if_pos hQt, if_pos hQu]
          · rw [hL4 t ht, hL4 u hu, if_pos hQt, if_pos hQu]
        · have hlu : GetLocalDepth d4 u = GetLocalDepth s.dir u := by
            rw [hL4 u hu, if_neg hQu]
          rw [hlu] at hm
          have hold := hinv.unif u t hu ht hm
          have hQt : ¬ (t % 2 ^ (L - 1) = idx % 2 ^ (L - 1)) := by
            intro hQt
            have h1 : GetBucketPageId s.dir t = pid ∨ GetBucketPageId s.dir t = imgPid :=
              (hQB t ht).2 hQt
            rw [hold.1] at h1
            exact hQu ((hQB u hu).1 h1)
          constructor
          · rw [hB4 t ht, hB4 u hu, if_neg hQt, if_neg hQu]
            exact hold.1
          · rw [hL4 t ht, hL4 u hu, if_neg hQt, if_neg hQu]
            exact hold.2
      · intro u t hu ht hb
        rw [hsize4] at hu ht
        rw [hB4 u hu, hB4 t ht] at hb
        by_cases hQu : u % 2 ^ (L - 1) = idx % 2 ^ (L - 1)
        · by_cases hQt : t % 2 ^ (L - 1) = idx % 2 ^ (L - 1)
          · rw [hL4 u hu, if_pos hQu]
            exact hQu.trans hQt.symm
          · rw [if_pos hQu, if_neg hQt] at hb
            exact absurd ((hQB t ht).1 (Or.inr hb.symm)) hQt
        · by_cases hQt : t % 2 ^ (L - 1) = idx % 2 ^ (L - 1)
          · rw [if_neg hQu, if_pos hQt] at hb
            exact absurd ((hQB u hu).1 (Or.inr hb)) hQu
          · rw [if_neg hQu, if_neg hQt] at hb
            rw [hL4 u hu, if_neg hQu]
            exact hinv.inj u t hu ht hb
      · intro t ht
        rw [hsize4] at ht
        rw [hB4 t ht]
        by_cases hQ : t % 2 ^ (L - 1) = idx % 2 ^ (L - 1)
        · rw [if_pos hQ]
          exact himgpiddef ▸ hinv.fresh img himglt
        · rw [if_neg hQ]
          exact hinv.fresh t ht
    exact DirInv_shrinkLoop maxDepth s.next_page_id (d4.global_depth_ + 1) d4 hmain
  · have hcodepos : ((!(IsEmpty (lookupPage N s.pages
          (GetBucketPageId s.dir (KeyToDirectoryIndex hash key s.dir)))) ||
        decide (GetLocalDepth s.dir (KeyToDirectoryIndex hash key s.dir) ≤ 1) ||
        (GetLocalDepth s.dir (KeyToDirectoryIndex hash key s.dir) !=
          GetLocalDepth s.dir (GetSplitImageIndex s.dir
            (KeyToDirectoryIndex hash key s.dir)))) = true) := by
      by_contra hb
      rw [Bool.not_eq_true] at hb
      simp only [Bool.or_eq_false_iff, Bool.not_eq_false', decide_eq_false_iff_not,
        bne_eq_false_iff_eq] at hb
      exact hc ⟨hb.1.1, by omega, hb.2⟩
    simp only [Merge]
    rw [if_pos hcodepos]
    exact hinv

theorem copyLoop_append (old : Nat) (D : HashTableDirectoryPage) (l1 l2 : List Nat) :
    copyLoop old D (l1 ++ l2) = copyLoop old (copyLoop old D l1) l2 := by
  induction l1 generalizing D with
  | nil => rfl
  | cons i rest ih =>
    simp only [List.cons_append, copyLoop]
    exact ih _

theorem copyLoop_global (old : Nat) (l : List Nat) (D : HashTableDirectoryPage) :
    (copyLoop old D l).global_depth_ = D.global_depth_ := by
  induction l generalizing D with
  | nil => rfl
  | cons i rest ih =>
    simp only [copyLoop]
    rw [ih]
    rfl

theorem copyLoop_lenB (old : Nat) (l : List Nat) (D : HashTableDirectoryPage) :
    (copyLoop old D l).bucket_page_ids_.length = D.bucket_page_ids_.length := by
  induction l generalizing D with
  | nil => rfl
  | cons i rest ih =>
    simp only [copyLoop]
    rw [ih]
    simp [SetLocalDepth, SetBucketPageId]

theorem copyLoop_lenL (old : Nat) (l : List Nat) (D : HashTableDirectoryPage) :
    (copyLoop old D l).local_depths_.length = D.local_depths_.length := by
  induction l generalizing D with
  | nil => rfl
  | cons i rest ih =>
    simp only [copyLoop]
    rw [ih]
    simp [SetLocalDepth, SetBucketPageId]

theorem copyLoop_char (old : Nat) (D : HashTableDirectoryPage)
    (hb : old + old ≤ D.bucket_page_ids_.length) (hl : old + old ≤ D.local_depths_.length) :
    ∀ n, n ≤ old → ∀ j,
      (GetBucketPageId (copyLoop old D ((List.range n).map fun i => old + i)) j =
        if old ≤ j ∧ j < old + n then GetBucketPageId D (j - old) else GetBucketPageId D j) ∧
      (GetLocalDepth (copyLoop old D ((List.range n).map fun i => old + i)) j =
        if old ≤ j ∧ j < old + n then GetLocalDepth D (j - old) else GetLocalDepth D j) := by
  intro n
  induction n with
  | zero =>
    intro _ j
    simp only [List.range_zero, List.map_nil, copyLoop]
    constructor <;> rw [if_neg (by omega)]
  | succ n ih =>
    intro hn j
    have hn' : n ≤ old := by omega
    rw [show n + 1 = Nat.succ n from rfl, List.range_succ, List.map_append, copyLoop_append]
    simp only [List.map_cons, List.map_nil, copyLoop]
    rw [show old + n - old = n from by omega]
    have hBn := (ih hn' n).1
    have hLn := (ih hn' n).2
    rw [if_neg (by omega)] at hBn
    rw [if_neg (by omega)] at hLn
    constructor
    · by_cases hj : j = old + n
      · rw [hj, getB_setL]
        rw [getB_setB_same _ _ _ (by rw [copyLoop_lenB]; omega)]
        rw [hBn, if_pos (by omega : old ≤ old + n ∧ old + n < old + (n + 1)),
          show old + n - old = n from by omega]
      · rw [getB_setL, getB_setB_ne _ _ _ _ hj, (ih hn' j).1]
        have hiff : (old ≤ j ∧ j < old + (n + 1)) ↔ (old ≤ j ∧ j < old + n) := by omega
        simp only [hiff]
    · by_cases hj : j = old + n
      · rw [hj]
        rw [getL_setL_same _ _ _ (by
          rw [show (SetBucketPageId (copyLoop old D ((List.range n).map fun i => old + i))
              (old + n) (GetBucketPageId (copyLoop old D ((List.range n).map fun i => old + i))
                n)).local_depths_.length =
            (copyLoop old D ((List.range n).map fun i => old + i)).local_depths_.length
            from rfl, copyLoop_lenL]
          omega)]
        rw [hLn, if_pos (by omega : old ≤ old + n ∧ old + n < old + (n + 1)),
          show old + n - old = n from by omega]
      · rw [getL_setL_ne _ _ _ _ hj, getL_setB, (ih hn' j).2]
        have hiff : (old ≤ j ∧ j < old + (n + 1)) ↔ (old ≤ j ∧ j < old + n) := by omega
        simp only [hiff]

theorem splitLoop_append (p q : Int) (b ld : Nat) (D : HashTableDirectoryPage)
    (l1 l2 : List Nat) :
    splitLoop p q b ld D (l1 ++ l2) = splitLoop p q b ld (splitLoop p q b ld D l1) l2 := by
  induction l1 generalizing D with
  | nil => rfl
  | cons i rest ih =>
    simp only [List.cons_append, splitLoop]
    exact ih _

theorem splitLoop_global (p q : Int) (b ld : Nat) (l : List Nat)
    (D : HashTableDirectoryPage) :
    (splitLoop p q b ld D l).global_depth_ = D.global_depth_ := by
  induction l generalizing D with
  | nil => rfl
  | cons i rest ih =>
    simp only [splitLoop]
    rw [ih]
    split
    · split <;> rfl
    · rfl

theorem splitLoop_lenB (p q : Int) (b ld : Nat) (l : List Nat)
    (D : HashTableDirectoryPage) :
    (splitLoop p q b ld D l).bucket_page_ids_.length = D.bucket_page_ids_.length := by
  induction l generalizing D with
  | nil => rfl
  | cons i rest ih =>
    simp only [splitLoop]
    rw [ih]
    split
    · split <;> simp [SetLocalDepth, SetBucketPageId]
    · rfl

theorem splitLoop_lenL (p q : Int) (b ld : Nat) (l : List Nat)
    (D : HashTableDirectoryPage) :
    (splitLoop p q b ld D l).local_depths_.length = D.local_depths_.length := by
  induction l generalizing D with
  | nil => rfl
  | cons i rest ih =>
    simp only [splitLoop]
    rw [ih]
    split
    · split <;> simp [SetLocalDepth, SetBucketPageId]
    · rfl

theorem splitLoop_getB_range (p q : Int) (b ld : Nat) (n : Nat)
    (D : HashTableDirectoryPage) (hn : n ≤ D.bucket_page_ids_.length) :
    ∀ j, GetBucketPageId (splitLoop p q b ld D (List.range n)) j =
      if j < n ∧ GetBucketPageId D j = p ∧
          ¬ ((j &&& (2 ^ ld - 1)) = (b &&& (2 ^ ld - 1))) then q
      else GetBucketPageId D j := by
  induction n with
  | zero =>
    intro j
    simp [splitLoop]
  | succ n ih =>
    intro j
    have hn2 : n ≤ D.bucket_page_ids_.length := by omega
    rw [show n + 1 = Nat.succ n from rfl, List.range_succ, splitLoop_append]
    have hgetn : GetBucketPageId (splitLoop p q b ld D (List.range n)) n =
        GetBucketPageId D n := by
      rw [ih hn2 n]
      simp
    simp only [splitLoop]
    by_cases hcond : (GetBucketPageId (splitLoop p q b ld D (List.range n)) n == p) = true
    · rw [if_pos hcond]
      rw [hgetn] at hcond
      have hcondD : GetBucketPageId D n = p := by simpa using hcond
      by_cases hmask : ((n &&& (2 ^ ld - 1)) != (b &&& (2 ^ ld - 1))) = true
      · rw [if_pos hmask]
        have hmaskD : ¬ ((n &&& (2 ^ ld - 1)) = (b &&& (2 ^ ld - 1))) := by
          simpa using hmask
        by_cases hj : j = n
        · rw [hj, getB_setL]
          rw [getB_setB_same _ _ _ (by rw [splitLoop_lenB]; omega)]
          rw [if_pos ⟨by omega, hcondD, hmaskD⟩]
        · rw [getB_setL, getB_setB_ne _ _ _ _ hj, ih hn2 j]
          have hiff : (j < n + 1) ↔ (j < n) := by omega
          simp only [hiff]
      · rw [if_neg hmask]
        have hmaskD : (n &&& (2 ^ ld - 1)) = (b &&& (2 ^ ld - 1)) := by
          simpa using hmask
        by_cases hj : j = n
        · rw [hj, getB_setL, hgetn, if_neg (by tauto)]
        · rw [getB_setL, ih hn2 j]
          have hiff : (j < n + 1) ↔ (j < n) := by omega
          simp only [hiff]
    · rw [if_neg hcond]
      rw [hgetn] at hcond
      have hcondD : ¬ (GetBucketPageId D n = p) := by simpa using hcond
      rw [ih hn2 j]
      by_cases hj : j = n
      · rw [if_neg (by rw [hj]; omega), if_neg (by rw [hj]; tauto)]
      · have hiff : (j < n + 1) ↔ (j < n) := by omega
        simp only [hiff]

theorem splitLoop_getL_range (p q : Int) (b ld : Nat) (n : Nat)
    (D : HashTableDirectoryPage) (hnb : n ≤ D.bucket_page_ids_.length)
    (hnl : n ≤ D.local_depths_.length) :
    ∀ j, GetLocalDepth (splitLoop p q b ld D (List.range n)) j =
      if j < n ∧ GetBucketPageId D j = p then ld
      else GetLocalDepth D j := by
  induction n with
  | zero =>
    intro j
    simp [splitLoop]
  | succ n ih =>
    intro j
    have hn2 : n ≤ D.bucket_page_ids_.length := by omega
    have hn3 : n ≤ D.local_depths_.length := by omega
    rw [show n + 1 = Nat.succ n from rfl, List.range_succ, splitLoop_append]
    have hgetn : GetBucketPageId (splitLoop p q b ld D (List.range n)) n =
        GetBucketPageId D n := by
      rw [splitLoop_getB_range p q b ld n D hn2 n]
      simp
    simp only [splitLoop]
    by_cases hcond : (GetBucketPageId (splitLoop p q b ld D (List.range n)) n == p) = true
    · rw [if_pos hcond]
      rw [hgetn] at hcond
      have hcondD : GetBucketPageId D n = p := by simpa using hcond
      have hlenL : ∀ dd : HashTableDirectoryPage,
          dd.local_depths_.length = D.local_depths_.length →
          GetLocalDepth (SetLocalDepth dd n ld) j =
            if j = n then ld else GetLocalDepth dd j := by
        intro dd hdd
        by_cases hj : j = n
        · rw [hj, if_pos rfl, getL_setL_same _ _ _ (by rw [hdd]; omega)]
        · rw [if_neg hj, getL_setL_ne _ _ _ _ hj]
      split
      · rw [hlenL _ (by
          rw [show (SetBucketPageId (splitLoop p q b ld D (List.range n)) n
              q).local_depths_.length =
            (splitLoop p q b ld D (List.range n)).local_depths_.length from rfl,
            splitLoop_lenL])]
        by_cases hj : j = n
        · rw [if_pos hj, if_pos ⟨by omega, by rw [hj]; exact hcondD⟩]
        · rw [if_neg hj, getL_setB, ih hn2 hn3 j]
          have hiff : (j < n + 1) ↔ (j < n) := by omega
          simp only [hiff]
      · rw [hlenL _ (by rw [splitLoop_lenL])]
        by_cases hj : j = n
        · rw [if_pos hj, if_pos ⟨by omega, by rw [hj]; exact hcondD⟩]
        · rw [if_neg hj, ih hn2 hn3 j]
          have hiff : (j < n + 1) ↔ (j < n) := by omega
          simp only [hiff]
    · rw [if_neg hcond]
      rw [hgetn] at hcond
      have hcondD : ¬ (GetBucketPageId D n = p) := by simpa using hcond
      rw [ih hn2 hn3 j]
      by_cases hj : j = n
      · rw [if_neg (by rw [hj]; omega), if_neg (by rw [hj]; tauto)]
      · have hiff : (j < n + 1) ↔ (j < n) := by omega
        simp only [hiff]

theorem lt_two_pow_succ_cases (u idx g : Nat) (hu : u < 2 ^ g + 2 ^ g)
    (hm : u % 2 ^ g = idx % 2 ^ g) (hidx : idx < 2 ^ g) : u = idx ∨ u = idx + 2 ^ g := by
  have h1 := Nat.div_add_mod u (2 ^ g)
  have h2 : u / 2 ^ g < 2 := Nat.div_lt_of_lt_mul (by omega)
  have h3 : idx % 2 ^ g = idx := Nat.mod_eq_of_lt hidx
  have hq : ∀ q : Nat, q < 2 → q = 0 ∨ q = 1 := fun q hq => by omega
  rcases hq _ h2 with h4 | h4
  · left
    rw [h4] at h1
    omega
  · right
    rw [h4] at h1
    omega

theorem DirInv_growStep (maxDepth : Nat) (d : HashTableDirectoryPage) (npid : Int)
    (idx : Nat) (d2 d3 d4 : HashTableDirectoryPage) (si : Nat)
    (hinv : DirInv d npid maxDepth)
    (hidx : idx < 2 ^ d.global_depth_)
    (hgl : d.global_depth_ = GetLocalDepth d idx)
    (hcap : d.global_depth_ + 1 ≤ maxDepth)
    (hd2 : d2 = copyLoop (2 ^ d.global_depth_) { d with global_depth_ := d.global_depth_ + 1 }
      ((List.range (2 ^ d.global_depth_)).map fun i => 2 ^ d.global_depth_ + i))
    (hd3 : d3 = IncrLocalDepth d2 idx)
    (hsi : si = GetSplitImageIndex d3 idx)
    (hd4 : d4 = SetBucketPageId (IncrLocalDepth d3 si) si npid) :
    DirInv d4 (npid + 1) maxDepth := by
  have hop : 0 < 2 ^ d.global_depth_ := Nat.two_pow_pos _
  have hcap' : 2 ^ (d.global_depth_ + 1) ≤ 2 ^ maxDepth :=
    Nat.pow_le_pow_right (by norm_num) hcap
  have hoo : 2 ^ d.global_depth_ + 2 ^ d.global_depth_ = 2 ^ (d.global_depth_ + 1) := by
    rw [pow_succ]
    omega
  have hole : 2 ^ d.global_depth_ ≤ 2 ^ maxDepth :=
    Nat.pow_le_pow_right (by norm_num) hinv.gle
  have hchar := copyLoop_char (2 ^ d.global_depth_)
    { d with global_depth_ := d.global_depth_ + 1 }
    (by rw [show ({ d with global_depth_ := d.global_depth_ + 1 } :
        HashTableDirectoryPage).bucket_page_ids_.length = d.bucket_page_ids_.length from rfl,
      hinv.lenB]; omega)
    (by rw [show ({ d with global_depth_ := d.global_depth_ + 1 } :
        HashTableDirectoryPage).local_depths_.length = d.local_depths_.length from rfl,
      hinv.lenL]; omega)
    (2 ^ d.global_depth_) le_rfl
  have hD2B : ∀ j, j < 2 ^ d.global_depth_ + 2 ^ d.global_depth_ →
      GetBucketPageId d2 j = GetBucketPageId d (j % 2 ^ d.global_depth_) := by
    intro j hj
    have h1 := (hchar j).1
    rw [← hd2] at h1
    rw [h1]
    by_cases hij : 2 ^ d.global_depth_ ≤ j
    · rw [if_pos ⟨hij, by omega⟩]
      have hmod : j % 2 ^ d.global_depth_ = j - 2 ^ d.global_depth_ := by
        rw [Nat.mod_eq_sub_mod hij]
        exact Nat.mod_eq_of_lt (by omega)
      rw [hmod]
      rfl
    · rw [if_neg (by omega), Nat.mod_eq_of_lt (by omega)]
      rfl
  have hD2L : ∀ j, j < 2 ^ d.global_depth_ + 2 ^ d.global_depth_ →
      GetLocalDepth d2 j = GetLocalDepth d (j % 2 ^ d.global_depth_) := by
    intro j hj
    have h1 := (hchar j).2
    rw [← hd2] at h1
    rw [h1]
    by_cases hij : 2 ^ d.global_depth_ ≤ j
    · rw [if_pos ⟨hij, by omega⟩]
      have hmod : j % 2 ^ d.global_depth_ = j - 2 ^ d.global_depth_ := by
        rw [Nat.mod_eq_sub_mod hij]
        exact Nat.mod_eq_of_lt (by omega)
      rw [hmod]
      rfl
    · rw [if_neg (by omega), Nat.mod_eq_of_lt (by omega)]
      rfl
  have hlen2b : d2.bucket_page_ids_.length = 2 ^ maxDepth := by
    rw [hd2, copyLoop_lenB]
    exact hinv.lenB
  have hlen2l : d2.local_depths_.length = 2 ^ maxDepth := by
    rw [hd2, copyLoop_lenL]
    exact hinv.lenL
  have hidx2 : idx < 2 ^ d.global_depth_ + 2 ^ d.global_depth_ := by omega
  have hgL2 : GetLocalDepth d2 idx = d.global_depth_ := by
    rw [hD2L idx hidx2, Nat.mod_eq_of_lt hidx]
    exact hgl.symm
  have hL3 : ∀ j, GetLocalDepth d3 j =
      if j = idx then d.global_depth_ + 1 else GetLocalDepth d2 j := by
    intro j
    rw [hd3, IncrLocalDepth]
    by_cases hj : j = idx
    · rw [hj, if_pos rfl, getL_setL_same _ _ _ (by rw [hlen2l]; omega), hgL2]
    · rw [if_neg hj, getL_setL_ne _ _ _ _ hj]
  have hB3 : ∀ j, GetBucketPageId d3 j = GetBucketPageId d2 j := by
    intro j
    rw [hd3, IncrLocalDepth]
    exact getB_setL _ _ _ _
  have hsi_eq : si = idx + 2 ^ d.global_depth_ := by
    rw [hsi, GetSplitImageIndex, hL3 idx, if_pos rfl,
      show d.global_depth_ + 1 - 1 = d.global_depth_ from rfl]
    exact xor_two_pow_eq_add idx _ hidx
  have hsi_ne : si ≠ idx := by omega
  have hsi2 : si < 2 ^ d.global_depth_ + 2 ^ d.global_depth_ := by omega
  have hsi_mod : si % 2 ^ d.global_depth_ = idx := by
    rw [hsi_eq, Nat.add_mod_right]
    exact Nat.mod_eq_of_lt hidx
  have hL3si : GetLocalDepth d3 si = d.global_depth_ := by
    rw [hL3 si, if_neg hsi_ne, hD2L si hsi2, hsi_mod]
    exact hgl.symm
  have hglob2 : d2.global_depth_ = d.global_depth_ + 1 := by
    rw [hd2, copyLoop_global]
  have hglob4 : d4.global_depth_ = d.global_depth_ + 1 := by
    have h1 : d4.global_depth_ = d2.global_depth_ := by
      rw [hd4, hd3]
      rfl
    rw [h1, hglob2]
  have hsz4 : Size d4 = 2 ^ d.global_depth_ + 2 ^ d.global_depth_ := by
    simp only [Size, hglob4]
    rw [pow_succ]
    omega
  have hB4 : ∀ j, j < 2 ^ d.global_depth_ + 2 ^ d.global_depth_ →
      GetBucketPageId d4 j =
        if j = si then npid else GetBucketPageId d (j % 2 ^ d.global_depth_) := by
    intro j hj
    rw [hd4]
    by_cases hjs : j = si
    · rw [hjs, if_pos rfl]
      apply getB_setB_same
      rw [show (IncrLocalDepth d3 si).bucket_page_ids_.length =
          d3.bucket_page_ids_.length from rfl,
        show d3.bucket_page_ids_.length = d2.bucket_page_ids_.length from by rw [hd3]; rfl,
        hlen2b]
      omega
    · rw [if_neg hjs, getB_setB_ne _ _ _ _ hjs,
        show GetBucketPageId (IncrLocalDepth d3 si) j = GetBucketPageId d3 j from rfl,
        hB3 j]
      exact hD2B j hj
  have hL4 : ∀ j, j < 2 ^ d.global_depth_ + 2 ^ d.global_depth_ →
      GetLocalDepth d4 j =
        if j = idx ∨ j = si then d.global_depth_ + 1
        else GetLocalDepth d (j % 2 ^ d.global_depth_) := by
    intro j hj
    rw [hd4,
      show GetLocalDepth (SetBucketPageId (IncrLocalDepth d3 si) si npid) j =
        GetLocalDepth (IncrLocalDepth d3 si) j from rfl, IncrLocalDepth]
    by_cases hjs : j = si
    · rw [hjs, getL_setL_same _ _ _ (by
        rw [show d3.local_depths_.length = d2.local_depths_.length from by
            rw [hd3]; simp [IncrLocalDepth, SetLocalDepth],
          hlen2l]
        omega), hL3si, if_pos (Or.inr rfl)]
    · rw [getL_setL_ne _ _ _ _ hjs, hL3 j]
      by_cases hji : j = idx
      · rw [if_pos hji, if_pos (Or.inl hji)]
      · rw [if_neg hji, if_neg (not_or.mpr ⟨hji, hjs⟩)]
        exact hD2L j hj
  refine ⟨?_, ?_, ?_, ?_, ?_, ?_, ?_, ?_⟩
  · rw [hd4, hd3, hd2]
    simp only [SetBucketPageId, IncrLocalDepth, SetLocalDepth, List.length_set]
    rw [copyLoop_lenB]
    exact hinv.lenB
  · rw [hd4, hd3, hd2]
    simp only [SetBucketPageId, IncrLocalDepth, SetLocalDepth, List.length_set]
    rw [copyLoop_lenL]
    exact hinv.lenL
  · rw [hglob4]
    exact hcap
  · intro t ht
    rw [hsz4] at ht
    rw [hL4 t ht]
    by_cases h : t = idx ∨ t = si
    · rw [if_pos h]
      omega
    · rw [if_neg h]
      exact hinv.dpos _ (Nat.mod_lt _ hop)
  · intro t ht
    rw [hsz4] at ht
    rw [hL4 t ht, hglob4]
    by_cases h : t = idx ∨ t = si
    · rw [if_pos h]
    · rw [if_neg h]
      have := hinv.dbound _ (Nat.mod_lt _ hop : t % 2 ^ d.global_depth_ < 2 ^ d.global_depth_)
      omega
  · intro u t hu ht hm
    rw [hsz4] at hu ht
    rw [hL4 u hu] at hm
    by_cases hui : u = idx ∨ u = si
    · rw [if_pos hui] at hm
      have hteq : t = u := by
        rw [Nat.mod_eq_of_lt (by omega), Nat.mod_eq_of_lt (by omega)] at hm
        exact hm
      rw [hteq]
      exact ⟨rfl, rfl⟩
    · rw [if_neg hui] at hm
      have hu' : u % 2 ^ d.global_depth_ < 2 ^ d.global_depth_ := Nat.mod_lt _ hop
      have hlu_le : GetLocalDepth d (u % 2 ^ d.global_depth_) ≤ d.global_depth_ :=
        hinv.dbound _ hu'
      have hmmu : u % 2 ^ d.global_depth_ % 2 ^ GetLocalDepth d (u % 2 ^ d.global_depth_) =
          u % 2 ^ GetLocalDepth d (u % 2 ^ d.global_depth_) :=
        Nat.mod_mod_of_dvd u (pow_dvd_pow 2 hlu_le)
      have hmmt : t % 2 ^ d.global_depth_ % 2 ^ GetLocalDepth d (u % 2 ^ d.global_depth_) =
          t % 2 ^ GetLocalDepth d (u % 2 ^ d.global_depth_) :=
        Nat.mod_mod_of_dvd t (pow_dvd_pow 2 hlu_le)
      have hkey : ∀ w, w < 2 ^ d.global_depth_ + 2 ^ d.global_depth_ →
          w % 2 ^ d.global_depth_ = idx →
          w % 2 ^ GetLocalDepth d (u % 2 ^ d.global_depth_) =
            u % 2 ^ GetLocalDepth d (u % 2 ^ d.global_depth_) → False := by
        intro w hw hwmod hwm
        have hidxm : idx % 2 ^ GetLocalDepth d (u % 2 ^ d.global_depth_) =
            (u % 2 ^ d.global_depth_) % 2 ^ GetLocalDepth d (u % 2 ^ d.global_depth_) := by
          rw [← hwmod, Nat.mod_mod_of_dvd w (pow_dvd_pow 2 hlu_le), hwm, ← hmmu]
        have hugu := hinv.unif (u % 2 ^ d.global_depth_) idx hu' hidx hidxm
        have hlu_eq : GetLocalDepth d (u % 2 ^ d.global_depth_) = d.global_depth_ := by
          rw [← hugu.2, ← hgl]
        rw [hlu_eq] at hwm
        have hum : u % 2 ^ d.global_depth_ = idx % 2 ^ d.global_depth_ := by
          have h5 : idx % 2 ^ d.global_depth_ = idx := Nat.mod_eq_of_lt hidx
          omega
        rcases lt_two_pow_succ_cases u idx d.global_depth_ (by omega) hum hidx with h | h
        · exact hui (Or.inl h)
        · exact hui (Or.inr (by rw [hsi_eq]; exact h))
      have hti : ¬ (t = idx ∨ t = si) := by
        rintro (h | h)
        · refine hkey t (by omega) ?_ hm
          rw [h, Nat.mod_eq_of_lt hidx]
        · refine hkey t (by omega) ?_ hm
          rw [h]
          exact hsi_mod
      have hm2 : t % 2 ^ d.global_depth_ % 2 ^ GetLocalDepth d (u % 2 ^ d.global_depth_) =
          u % 2 ^ d.global_depth_ % 2 ^ GetLocalDepth d (u % 2 ^ d.global_depth_) := by
        rw [hmmu, hmmt]
        exact hm
      have hold := hinv.unif (u % 2 ^ d.global_depth_) (t % 2 ^ d.global_depth_) hu'
        (Nat.mod_lt _ hop) hm2
      constructor
      · rw [hB4 t ht, hB4 u hu, if_neg (fun h => hti (Or.inr h)),
          if_neg (fun h => hui (Or.inr h))]
        exact hold.1
      · rw [hL4 t ht, hL4 u hu, if_neg hti, if_neg hui]
        exact hold.2
  · intro u t hu ht hb
    rw [hsz4] at hu ht
    rw [hB4 u hu, hB4 t ht] at hb
    by_cases hus : u = si
    · by_cases hts : t = si
      · rw [hus, hts]
      · rw [if_pos hus, if_neg hts] at hb
        have := hinv.fresh (t % 2 ^ d.global_depth_) (Nat.mod_lt _ hop)
        rw [← hb] at this
        exact absurd this (lt_irrefl npid)
    · by_cases hts : t = si
      · rw [if_neg hus, if_pos hts] at hb
        have := hinv.fresh (u % 2 ^ d.global_depth_) (Nat.mod_lt _ hop)
        rw [hb] at this
        exact absurd this (lt_irrefl npid)
      · rw [if_neg hus, if_neg hts] at hb
        have hold := hinv.inj (u % 2 ^ d.global_depth_) (t % 2 ^ d.global_depth_)
          (Nat.mod_lt _ hop) (Nat.mod_lt _ hop) hb
        by_cases hui : u = idx
        · rw [hL4 u hu, if_pos (Or.inl hui)]
          have humod : u % 2 ^ d.global_depth_ = idx := by
            rw [hui, Nat.mod_eq_of_lt hidx]
          rw [humod, ← hgl] at hold
          have ht' : t % 2 ^ d.global_depth_ = idx % 2 ^ d.global_depth_ := by
            have h5 := Nat.mod_mod_of_dvd t (dvd_refl (2 ^ d.global_depth_))
            have h6 : idx % 2 ^ d.global_depth_ = idx := Nat.mod_eq_of_lt hidx
            omega
          have hteq : t = idx := by
            rcases lt_two_pow_succ_cases t idx d.global_depth_ (by omega) ht' hidx with h | h
            · exact h
            · exact absurd (by rw [hsi_eq]; exact h) hts
          rw [hteq, hui]
        · rw [hL4 u hu, if_neg (not_or.mpr ⟨hui, hus⟩)]
          have hlu_le : GetLocalDepth d (u % 2 ^ d.global_depth_) ≤ d.global_depth_ :=
            hinv.dbound _ (Nat.mod_lt _ hop)
          rw [← Nat.mod_mod_of_dvd u (pow_dvd_pow 2 hlu_le),
            ← Nat.mod_mod_of_dvd t (pow_dvd_pow 2 hlu_le)]
          exact hold
  · intro t ht
    rw [hsz4] at ht
    rw [hB4 t ht]
    by_cases h : t = si
    · rw [if_pos h]
      omega
    · rw [if_neg h]
      have := hinv.fresh (t % 2 ^ d.global_depth_) (Nat.mod_lt _ hop)
      omega

theorem DirInv_splitStep (maxDepth : Nat) (d : HashTableDirectoryPage) (npid : Int)
    (idx : Nat) (d1 d2 : HashTableDirectoryPage) (ld : Nat)
    (hinv : DirInv d npid maxDepth)
    (hidx : idx < 2 ^ d.global_depth_)
    (hne : d.global_depth_ ≠ GetLocalDepth d idx)
    (hd1 : d1 = IncrLocalDepth d idx)
    (hld : ld = GetLocalDepth d1 idx)
    (hd2 : d2 = splitLoop (GetBucketPageId d idx) npid idx ld d1 (List.range (Size d1))) :
    DirInv d2 (npid + 1) maxDepth := by
  have hop : 0 < 2 ^ d.global_depth_ := Nat.two_pow_pos _
  have hole : 2 ^ d.global_depth_ ≤ 2 ^ maxDepth :=
    Nat.pow_le_pow_right (by norm_num) hinv.gle
  have hlt : GetLocalDepth d idx < d.global_depth_ :=
    lt_of_le_of_ne (hinv.dbound idx hidx) (fun he => hne he.symm)
  have hgetB1 : ∀ j, GetBucketPageId d1 j = GetBucketPageId d j := by
    intro j
    rw [hd1, IncrLocalDepth]
    exact getB_setL _ _ _ _
  have hL1 : ∀ j, GetLocalDepth d1 j =
      if j = idx then GetLocalDepth d idx + 1 else GetLocalDepth d j := by
    intro j
    rw [hd1, IncrLocalDepth]
    by_cases hj : j = idx
    · rw [hj, if_pos rfl, getL_setL_same _ _ _ (by rw [hinv.lenL]; omega)]
    · rw [if_neg hj, getL_setL_ne _ _ _ _ hj]
  have hld_eq : ld = GetLocalDepth d idx + 1 := by
    rw [hld, hL1 idx, if_pos rfl]
  have hlen1b : d1.bucket_page_ids_.length = 2 ^ maxDepth := by
    rw [hd1]
    exact hinv.lenB
  have hlen1l : d1.local_depths_.length = 2 ^ maxDepth := by
    rw [hd1]
    simp only [IncrLocalDepth, SetLocalDepth, List.length_set]
    exact hinv.lenL
  have hsd1 : Size d1 = 2 ^ d.global_depth_ := by
    rw [hd1]
    rfl
  have hcharB := splitLoop_getB_range (GetBucketPageId d idx) npid idx ld (Size d1) d1
    (by rw [hsd1, hlen1b]; exact hole)
  have hcharL := splitLoop_getL_range (GetBucketPageId d idx) npid idx ld (Size d1) d1
    (by rw [hsd1, hlen1b]; exact hole) (by rw [hsd1, hlen1l]; exact hole)
  have hC : ∀ t, t < 2 ^ d.global_depth_ →
      (GetBucketPageId d t = GetBucketPageId d idx ↔
        t % 2 ^ GetLocalDepth d idx = idx % 2 ^ GetLocalDepth d idx) := by
    intro t ht
    constructor
    · intro h
      exact (hinv.inj idx t hidx ht h.symm).symm
    · intro h
      exact (hinv.unif idx t hidx ht h).1
  have hexcl : ∀ j, j % 2 ^ (GetLocalDepth d idx + 1) = idx % 2 ^ (GetLocalDepth d idx + 1) →
      j % 2 ^ (GetLocalDepth d idx + 1) =
        (idx ^^^ 2 ^ GetLocalDepth d idx) % 2 ^ (GetLocalDepth d idx + 1) → False := by
    intro j h1 h2
    exact xor_mod_two_pow_succ_ne idx (GetLocalDepth d idx) (h2.symm.trans h1)
  have hB2 : ∀ j, j < 2 ^ d.global_depth_ →
      GetBucketPageId d2 j =
        if j % 2 ^ (GetLocalDepth d idx + 1) =
            (idx ^^^ 2 ^ GetLocalDepth d idx) % 2 ^ (GetLocalDepth d idx + 1) then npid
        else GetBucketPageId d j := by
    intro j hj
    rw [hd2, hcharB j, Nat.and_pow_two_sub_one_eq_mod, Nat.and_pow_two_sub_one_eq_mod,
      hgetB1 j, hld_eq, hsd1]
    by_cases hR : j % 2 ^ (GetLocalDepth d idx + 1) =
        (idx ^^^ 2 ^ GetLocalDepth d idx) % 2 ^ (GetLocalDepth d idx + 1)
    · have hBpid : GetBucketPageId d j = GetBucketPageId d idx :=
        (hC j hj).2 ((class_split j idx (GetLocalDepth d idx)).mpr (Or.inr hR))
      have hnP : ¬ (j % 2 ^ (GetLocalDepth d idx + 1) =
          idx % 2 ^ (GetLocalDepth d idx + 1)) := fun hP => hexcl j hP hR
      rw [if_pos ⟨hj, hBpid, hnP⟩, if_pos hR]
    · have hcond : ¬ (j < 2 ^ d.global_depth_ ∧
          GetBucketPageId d j = GetBucketPageId d idx ∧
          ¬ (j % 2 ^ (GetLocalDepth d idx + 1) = idx % 2 ^ (GetLocalDepth d idx + 1))) := by
        rintro ⟨-, hBpid, hnP⟩
        rcases (class_split j idx (GetLocalDepth d idx)).mp ((hC j hj).1 hBpid) with h | h
        · exact hnP h
        · exact hR h
      rw [if_neg hcond, if_neg hR]
  have hL2 : ∀ j, j < 2 ^ d.global_depth_ →
      GetLocalDepth d2 j =
        if j % 2 ^ (GetLocalDepth d idx + 1) = idx % 2 ^ (GetLocalDepth d idx + 1) ∨
            j % 2 ^ (GetLocalDepth d idx + 1) =
              (idx ^^^ 2 ^ GetLocalDepth d idx) % 2 ^ (GetLocalDepth d idx + 1) then
          GetLocalDepth d idx + 1
        else GetLocalDepth d j := by
    intro j hj
    rw [hd2, hcharL j, hgetB1 j, hld_eq, hsd1]
    by_cases hPR : j % 2 ^ (GetLocalDepth d idx + 1) = idx % 2 ^ (GetLocalDepth d idx + 1) ∨
        j % 2 ^ (GetLocalDepth d idx + 1) =
          (idx ^^^ 2 ^ GetLocalDepth d idx) % 2 ^ (GetLocalDepth d idx + 1)
    · have hBpid : GetBucketPageId d j = GetBucketPageId d idx :=
        (hC j hj).2 ((class_split j idx (GetLocalDepth d idx)).mpr hPR)
      rw [if_pos ⟨hj, hBpid⟩, if_pos hPR]
    · have hcond : ¬ (j < 2 ^ d.global_depth_ ∧
          GetBucketPageId d j = GetBucketPageId d idx) := by
        rintro ⟨-, hBpid⟩
        exact hPR ((class_split j idx (GetLocalDepth d idx)).mp ((hC j hj).1 hBpid))
      have hjidx : j ≠ idx := by
        intro he
        exact hPR (Or.inl (by rw [he]))
      rw [if_neg hcond, if_neg hPR, hL1 j, if_neg hjidx]
  have hglob2 : d2.global_depth_ = d.global_depth_ := by
    rw [hd2, splitLoop_global, hd1]
    rfl
  have hsz2 : Size d2 = 2 ^ d.global_depth_ := by
    simp only [Size, hglob2]
  refine ⟨?_, ?_, ?_, ?_, ?_, ?_, ?_, ?_⟩
  · rw [hd2, splitLoop_lenB]
    exact hlen1b
  · rw [hd2, splitLoop_lenL]
    exact hlen1l
  · rw [hglob2]
    exact hinv.gle
  · intro t ht
    rw [hsz2] at ht
    rw [hL2 t ht]
    by_cases h : t % 2 ^ (GetLocalDepth d idx + 1) = idx % 2 ^ (GetLocalDepth d idx + 1) ∨
        t % 2 ^ (GetLocalDepth d idx + 1) =
          (idx ^^^ 2 ^ GetLocalDepth d idx) % 2 ^ (GetLocalDepth d idx + 1)
    · rw [if_pos h]
      omega
    · rw [if_neg h]
      exact hinv.dpos t ht
  · intro t ht
    rw [hsz2] at ht
    rw [hL2 t ht, hglob2]
    by_cases h : t % 2 ^ (GetLocalDepth d idx + 1) = idx % 2 ^ (GetLocalDepth d idx + 1) ∨
        t % 2 ^ (GetLocalDepth d idx + 1) =
          (idx ^^^ 2 ^ GetLocalDepth d idx) % 2 ^ (GetLocalDepth d idx + 1)
    · rw [if_pos h]
      omega
    · rw [if_neg h]
      have := hinv.dbound t ht
      omega
  · intro u t hu ht hm
    rw [hsz2] at hu ht
    rw [hL2 u hu] at hm
    by_cases hPRu : u % 2 ^ (GetLocalDepth d idx + 1) = idx % 2 ^ (GetLocalDepth d idx + 1) ∨
        u % 2 ^ (GetLocalDepth d idx + 1) =
          (idx ^^^ 2 ^ GetLocalDepth d idx) % 2 ^ (GetLocalDepth d idx + 1)
    · rw [if_pos hPRu] at hm
      have hPRt : t % 2 ^ (GetLocalDepth d idx + 1) = idx % 2 ^ (GetLocalDepth d idx + 1) ∨
          t % 2 ^ (GetLocalDepth d idx + 1) =
            (idx ^^^ 2 ^ GetLocalDepth d idx) % 2 ^ (GetLocalDepth d idx + 1) := by
        rcases hPRu with h | h
        · exact Or.inl (hm.trans h)
        · exact Or.inr (hm.trans h)
      constructor
      · rw [hB2 t ht, hB2 u hu]
        rcases hPRu with h | h
        · have hPt : t % 2 ^ (GetLocalDepth d idx + 1) =
              idx % 2 ^ (GetLocalDepth d idx + 1) := hm.trans h
          have hnRu : ¬ (u % 2 ^ (GetLocalDepth d idx + 1) =
              (idx ^^^ 2 ^ GetLocalDepth d idx) % 2 ^ (GetLocalDepth d idx + 1)) :=
            fun h2 => hexcl u h h2
          have hnRt : ¬ (t % 2 ^ (GetLocalDepth d idx + 1) =
              (idx ^^^ 2 ^ GetLocalDepth d idx) % 2 ^ (GetLocalDepth d idx + 1)) :=
            fun h2 => hexcl t hPt h2
          rw [if_neg hnRt, if_neg hnRu,
            (hC t ht).2 ((class_split t idx (GetLocalDepth d idx)).mpr (Or.inl hPt)),
            (hC u hu).2 ((class_split u idx (GetLocalDepth d idx)).mpr (Or.inl h))]
        · have hRt : t % 2 ^ (GetLocalDepth d idx + 1) =
              (idx ^^^ 2 ^ GetLocalDepth d idx) % 2 ^ (GetLocalDepth d idx + 1) :=
            hm.trans h
          rw [if_pos hRt, if_pos h]
      · rw [hL2 t ht, hL2 u hu, if_pos hPRt, if_pos hPRu]
    · rw [if_neg hPRu] at hm
      have hold := hinv.unif u t hu ht hm
      have hnPRt : ¬ (t % 2 ^ (GetLocalDepth d idx + 1) =
            idx % 2 ^ (GetLocalDepth d idx + 1) ∨
          t % 2 ^ (GetLocalDepth d idx + 1) =
            (idx ^^^ 2 ^ GetLocalDepth d idx) % 2 ^ (GetLocalDepth d idx + 1)) := by
        intro hPRt
        have hBt : GetBucketPageId d t = GetBucketPageId d idx :=
          (hC t ht).2 ((class_split t idx (GetLocalDepth d idx)).mpr hPRt)
        have hBu : GetBucketPageId d u = GetBucketPageId d idx := by
          rw [← hold.1]
          exact hBt
        exact hPRu ((class_split u idx (GetLocalDepth d idx)).mp ((hC u hu).1 hBu))
      constructor
      · rw [hB2 t ht, hB2 u hu, if_neg (fun h => hnPRt (Or.inr h)),
          if_neg (fun h => hPRu (Or.inr h))]
        exact hold.1
      · rw [hL2 t ht, hL2 u hu, if_neg hnPRt, if_neg hPRu]
        exact hold.2
  · intro u t hu ht hb
    rw [hsz2] at hu ht
    rw [hB2 u hu, hB2 t ht] at hb
    by_cases hRu : u % 2 ^ (GetLocalDepth d idx + 1) =
        (idx ^^^ 2 ^ GetLocalDepth d idx) % 2 ^ (GetLocalDepth d idx + 1)
    · by_cases hRt : t % 2 ^ (GetLocalDepth d idx + 1) =
          (idx ^^^ 2 ^ GetLocalDepth d idx) % 2 ^ (GetLocalDepth d idx + 1)
      · rw [hL2 u hu, if_pos (Or.inr hRu)]
        exact hRu.trans hRt.symm
      · rw [if_pos hRu, if_neg hRt] at hb
        have := hinv.fresh t ht
        rw [← hb] at this
        exact absurd this (lt_irrefl npid)
    · by_cases hRt : t % 2 ^ (GetLocalDepth d idx + 1) =
          (idx ^^^ 2 ^ GetLocalDepth d idx) % 2 ^ (GetLocalDepth d idx + 1)
      · rw [if_neg hRu, if_pos hRt] at hb
        have := hinv.fresh u hu
        rw [hb] at this
        exact absurd this (lt_irrefl npid)
      · rw [if_neg hRu, if_neg hRt] at hb
        have hold := hinv.inj u t hu ht hb
        by_cases hPu : u % 2 ^ (GetLocalDepth d idx + 1) =
            idx % 2 ^ (GetLocalDepth d idx + 1)
        · rw [hL2 u hu, if_pos (Or.inl hPu)]
          have hBu : GetBucketPageId d u = GetBucketPageId d idx :=
            (hC u hu).2 ((class_split u idx (GetLocalDepth d idx)).mpr (Or.inl hPu))
          have hu_idx : u % 2 ^ GetLocalDepth d idx = idx % 2 ^ GetLocalDepth d idx :=
            (hC u hu).1 hBu
          have hLu : GetLocalDepth d u = GetLocalDepth d idx :=
            (hinv.unif idx u hidx hu hu_idx).2
          rw [hLu] at hold
          have hPRt : t % 2 ^ (GetLocalDepth d idx + 1) =
                idx % 2 ^ (GetLocalDepth d idx + 1) ∨
              t % 2 ^ (GetLocalDepth d idx + 1) =
                (idx ^^^ 2 ^ GetLocalDepth d idx) % 2 ^ (GetLocalDepth d idx + 1) := by
            apply (class_split t idx (GetLocalDepth d idx)).mp
            omega
          have hPt : t % 2 ^ (GetLocalDepth d idx + 1) =
              idx % 2 ^ (GetLocalDepth d idx + 1) := by
            rcases hPRt with h | h
            · exact h
            · exact absurd h hRt
          exact hPu.trans hPt.symm
        · rw [hL2 u hu, if_neg (not_or.mpr ⟨hPu, hRu⟩)]
          exact hold
  · intro t ht
    rw [hsz2] at ht
    rw [hB2 t ht]
    by_cases h : t % 2 ^ (GetLocalDepth d idx + 1) =
        (idx ^^^ 2 ^ GetLocalDepth d idx) % 2 ^ (GetLocalDepth d idx + 1)
    · rw [if_pos h]
      omega
    · rw [if_neg h]
      have := hinv.fresh t ht
      omega

theorem DirInv_init (N maxDepth : Nat) (h : 1 ≤ maxDepth) :
    DirInv (initState N maxDepth).dir (initState N maxDepth).next_page_id maxDepth := by
  have h2 : 2 ≤ 2 ^ maxDepth := by
    calc 2 = 2 ^ 1 := (pow_one 2).symm
    _ ≤ 2 ^ maxDepth := Nat.pow_le_pow_right (by norm_num) h
  have hb : ∀ t, t < 2 →
      GetBucketPageId (initState N maxDepth).dir t = if t = 0 then 1 else 2 := by
    intro t ht
    rcases (show t = 0 ∨ t = 1 from by omega) with h0 | h1
    · rw [h0, if_pos rfl]
      simp [initState, GetBucketPageId, List.getD, List.getElem?_set,
        show (0 : Nat) < 2 ^ maxDepth from by omega]
    · rw [h1, if_neg (by omega)]
      simp [initState, GetBucketPageId, List.getD, List.getElem?_set,
        show (1 : Nat) < 2 ^ maxDepth from by omega]
  have hl : ∀ t, t < 2 → GetLocalDepth (initState N maxDepth).dir t = 1 := by
    intro t ht
    rcases (show t = 0 ∨ t = 1 from by omega) with h0 | h1
    · rw [h0]
      simp [initState, GetLocalDepth, List.getD, List.getElem?_set,
        show (0 : Nat) < 2 ^ maxDepth from by omega]
    · rw [h1]
      simp [initState, GetLocalDepth, List.getD, List.getElem?_set,
        show (1 : Nat) < 2 ^ maxDepth from by omega]
  have hsz : Size (initState N maxDepth).dir = 2 := rfl
  have hg : (initState N maxDepth).dir.global_depth_ = 1 := rfl
  have hnp : (initState N maxDepth).next_page_id = 3 := rfl
  refine ⟨?_, ?_, ?_, ?_, ?_, ?_, ?_, ?_⟩
  · simp [initState]
  · simp [initState]
  · rw [hg]
    exact h
  · intro t ht
    rw [hsz] at ht
    have := hl t ht
    omega
  · intro t ht
    rw [hsz] at ht
    have := hl t ht
    omega
  · intro u t hu ht hm
    rw [hsz] at hu ht
    rw [hl u hu] at hm
    have hteq : t = u := by omega
    rw [hteq]
    exact ⟨rfl, rfl⟩
  · intro u t hu ht hbq
    rw [hsz] at hu ht
    rw [hb u hu, hb t ht] at hbq
    rw [hl u hu]
    split_ifs at hbq <;> omega
  · intro t ht
    rw [hsz] at ht
    rw [hb t ht]
    split <;> omega

theorem DirInv_Remove (N maxDepth : Nat) (hash : Int → Nat) (s : HTState) (key value : Int)
    (hinv : DirInv s.dir s.next_page_id maxDepth) :
    DirInv (Remove N hash s key value).1.dir (Remove N hash s key value).1.next_page_id
      maxDepth := by
  simp only [Remove]
  split
  · exact DirInv_Merge N maxDepth hash _ key value hinv
  · exact hinv

theorem DirInv_Insert (N maxDepth : Nat) (hash : Int → Nat) (fuel : Nat) :
    ∀ (s s2 : HTState) (key value : Int) (r : Bool),
      DirInv s.dir s.next_page_id maxDepth →
      Insert N maxDepth hash fuel s key value = some (s2, r) →
      DirInv s2.dir s2.next_page_id maxDepth := by
  induction fuel with
  | zero =>
    intro s s2 k v r hinv h
    simp [Insert] at h
  | succ fuel ih =>
    intro s s2 k v r hinv h
    rw [Insert] at h
    by_cases hfull : IsFull
        (lookupPage N s.pages (GetBucketPageId s.dir (KeyToDirectoryIndex hash k s.dir))) = true
    · simp only [hfull, Bool.not_true, Bool.false_eq_true, if_false, ite_false] at h
      split at h
      · rename_i hgl
        split at h
        · simp only [Option.some.injEq, Prod.mk.injEq] at h
          obtain ⟨hs2, hr⟩ := h
          rw [← hs2]
          exact hinv
        · rename_i hcap
          refine ih _ _ _ _ _ ?_ h
          exact DirInv_growStep maxDepth s.dir s.next_page_id
            (KeyToDirectoryIndex hash k s.dir) _ _ _ _ hinv
            (by rw [KeyToDirectoryIndex_eq_mod]; exact Nat.mod_lt _ (Nat.two_pow_pos _))
            hgl
            (by
              have h1 : 2 ^ s.dir.global_depth_ * 2 ≤ 2 ^ maxDepth := by omega
              rw [← pow_succ] at h1
              exact (Nat.pow_le_pow_iff_right (by norm_num)).1 h1)
            rfl rfl rfl rfl
      · rename_i hgl
        refine ih _ _ _ _ _ ?_ h
        exact DirInv_splitStep maxDepth s.dir s.next_page_id
          (KeyToDirectoryIndex hash k s.dir) _ _ _ hinv
          (by rw [KeyToDirectoryIndex_eq_mod]; exact Nat.mod_lt _ (Nat.two_pow_pos _))
          hgl rfl rfl rfl
    · rw [Bool.not_eq_true] at hfull
      simp only [hfull, Bool.not_false, if_true, ite_true, Option.some.injEq,
        Prod.mk.injEq] at h
      obtain ⟨hs2, hr⟩ := h
      rw [← hs2]
      exact hinv

/-- The reachable table states: the constructor's initial state, and closure under
the three mutating operations Insert (any fuel that terminates), Remove, and the
Remove-triggered Merge (Merge is only invoked from Remove, whose closure includes
it; it is also closed under directly). -/
inductive Reachable (N maxDepth : Nat) (hash : Int → Nat) : HTState → Prop where
  | init : Reachable N maxDepth hash (initState N maxDepth)
  | insert (s : HTState) (key value : Int) (fuel : Nat) (s2 : HTState) (r : Bool) :
      Reachable N maxDepth hash s → Insert N maxDepth hash fuel s key value = some (s2, r) →
      Reachable N maxDepth hash s2
  | remove (s : HTState) (key value : Int) : Reachable N maxDepth hash s →
      Reachable N maxDepth hash (Remove N hash s key value).1
  | merge (s : HTState) (key value : Int) : Reachable N maxDepth hash s →
      Reachable N maxDepth hash (Merge N hash s key value)

theorem DirInv_Reachable (N maxDepth : Nat) (hash : Int → Nat) (s : HTState)
    (hmd : 1 ≤ maxDepth) (hreach : Reachable N maxDepth hash s) :
    DirInv s.dir s.next_page_id maxDepth := by
  induction hreach with
  | init => exact DirInv_init N maxDepth hmd
  | insert s key value fuel s2 r hr hins ih =>
    exact DirInv_Insert N maxDepth hash fuel s s2 key value r ih hins
  | remove s key value hr ih => exact DirInv_Remove N maxDepth hash s key value ih
  | merge s key value hr ih => exact DirInv_Merge N maxDepth hash s key value ih

/-- Claim C7: after every Insert (including its directory-growth and split paths),
Remove, and Merge -- that is, in every state reachable from the constructor's
initial state by these operations, for any table with MAX_BUCKET_DEPTH at least 1 --
directory invariant D1 holds: any two in-use directory slots s and t whose low
local_depth(s) bits agree point at the same bucket page id. -/
theorem C7_directory_invariant_reachable (N maxDepth : Nat) (hash : Int → Nat)
    (s : HTState) (hmd : 1 ≤ maxDepth) (hreach : Reachable N maxDepth hash s) :
    D1 s.dir :=
  D1_of_DirInv s.dir s.next_page_id maxDepth
    (DirInv_Reachable N maxDepth hash s hmd hreach)

/-- Witness for C7: the invariant at the initial state of a table with bucket
capacity 2 and MAX_BUCKET_DEPTH 2. -/
theorem C7_witness : D1 (initState 2 2).dir :=
  C7_directory_invariant_reachable 2 2 (fun k => k.toNat) (initState 2 2) (by norm_num)
    Reachable.init

end BusTub
